import Mathlib

/-!
Verification of the Tic-Tac-Toe core from
`Tic_tac_toe_withAI/code/tic_tac_toe_game.cpp`.

The C++ board is `char board[3][3]` with cells `' '` (empty), `'X'` (the
constant `PLAYER`) and `'O'` (the constant `AI`).  We embed the board as a
structure of nine cells: the grid is a fixed 3x3 with `SIZE = 3` a
compile-time constant, so the C++ `for (r = 0..2) for (c = 0..2)` loops
unroll to the row-major coordinate sequence `cellsList`, and the
rows/columns/diagonals scanned by `checkWinner` unroll to the line sequence
`lineIdx` (rows first, then columns, then the two diagonals, in source
order).

The C++ code mutates the board in place and restores it (trial-and-revert);
we embed this by explicit state passing: every function that temporarily
mutates the board (`tryWinningMove`, `minimax`, the scan inside
`makeHardAIMove`) returns the final board state next to its result, so the
revert discipline becomes a provable equation instead of an ambient
assumption.
-/

/-- A cell of the board: `' '`, `'X'` or `'O'` in the C++ source. -/
inductive Cell where
  | E : Cell
  | X : Cell
  | O : Cell
deriving DecidableEq, Repr

/-- Source: `const char PLAYER = 'X';` -/
def PLAYER : Cell := Cell.X

/-- Source: `const char AI = 'O';` -/
def AI : Cell := Cell.O

/-- Source: `char board[SIZE][SIZE]` with `SIZE = 3`, row-major. -/
structure Board where
  a00 : Cell
  a01 : Cell
  a02 : Cell
  a10 : Cell
  a11 : Cell
  a12 : Cell
  a20 : Cell
  a21 : Cell
  a22 : Cell
deriving DecidableEq, Repr

/-- Read `board[r][c]`.  The source only reads in-range coordinates; an
out-of-range read is given the junk value `E`. -/
def Board.get (b : Board) (r c : Nat) : Cell :=
  match r, c with
  | 0, 0 => b.a00
  | 0, 1 => b.a01
  | 0, 2 => b.a02
  | 1, 0 => b.a10
  | 1, 1 => b.a11
  | 1, 2 => b.a12
  | 2, 0 => b.a20
  | 2, 1 => b.a21
  | 2, 2 => b.a22
  | _, _ => Cell.E

/-- Write `board[r][c] = v`.  The source only writes in-range coordinates
except for the final write of `makeHardAIMove`, whose range is checked
explicitly there (see `makeHardAIMove`); an out-of-range write is dropped. -/
def Board.set (b : Board) (r c : Nat) (v : Cell) : Board :=
  match r, c with
  | 0, 0 => { b with a00 := v }
  | 0, 1 => { b with a01 := v }
  | 0, 2 => { b with a02 := v }
  | 1, 0 => { b with a10 := v }
  | 1, 1 => { b with a11 := v }
  | 1, 2 => { b with a12 := v }
  | 2, 0 => { b with a20 := v }
  | 2, 1 => { b with a21 := v }
  | 2, 2 => { b with a22 := v }
  | _, _ => b

/-- The row-major coordinate sequence visited by
`for (r = 0; r < SIZE; r++) for (c = 0; c < SIZE; c++)`. -/
def cellsList : List (Nat × Nat) :=
  [(0, 0), (0, 1), (0, 2), (1, 0), (1, 1), (1, 2), (2, 0), (2, 1), (2, 2)]

/-- The all-blank board created at the start of `playGame`. -/
def emptyBoard : Board :=
  ⟨Cell.E, Cell.E, Cell.E, Cell.E, Cell.E, Cell.E, Cell.E, Cell.E, Cell.E⟩

/-- The eight winning lines in the exact order `checkWinner` scans them:
the three rows, then the three columns, then the main diagonal, then the
anti-diagonal.  Each entry lists the three cell coordinates of one line. -/
def lineIdx : List ((Nat × Nat) × (Nat × Nat) × (Nat × Nat)) :=
  [((0, 0), (0, 1), (0, 2)),
   ((1, 0), (1, 1), (1, 2)),
   ((2, 0), (2, 1), (2, 2)),
   ((0, 0), (1, 0), (2, 0)),
   ((0, 1), (1, 1), (2, 1)),
   ((0, 2), (1, 2), (2, 2)),
   ((0, 0), (1, 1), (2, 2)),
   ((0, 2), (1, 1), (2, 0))]

/-- One step of `checkWinner`: scan the given lines in order and return the
mark of the first complete line (`board[p] != ' ' && board[p] == board[q]
&& board[q] == board[r]`), or `' '` when no line in the list is complete. -/
def scanLines (b : Board) : List ((Nat × Nat) × (Nat × Nat) × (Nat × Nat)) → Cell
  | [] => Cell.E
  | (p, q, r) :: rest =>
    bif b.get p.1 p.2 != Cell.E && b.get p.1 p.2 == b.get q.1 q.2 &&
        b.get q.1 q.2 == b.get r.1 r.2 then
      b.get p.1 p.2
    else scanLines b rest

/-- Source `checkWinner`: rows, then columns, then the two diagonals; the
first complete line of identical non-blank marks determines the result;
`' '` if there is none. -/
def checkWinner (b : Board) : Cell := scanLines b lineIdx

/-- Modelled from the spec: the spec asserts that `checkWinner`'s result
does not depend on its evaluation order of rows, then columns, then
diagonals; this variant scans the same eight lines in the reversed order
(anti-diagonal first, rows last) for comparison. -/
def checkWinnerAltOrder (b : Board) : Cell := scanLines b lineIdx.reverse

/-- Whether all three cells of line `L` hold the mark `m`. -/
def lineAll (b : Board) (L : (Nat × Nat) × (Nat × Nat) × (Nat × Nat)) (m : Cell) : Bool :=
  b.get L.1.1 L.1.2 == m && b.get L.2.1.1 L.2.1.2 == m && b.get L.2.2.1 L.2.2.2 == m

/-- Whether the mark `m` has a completed line of three anywhere on `b`. -/
def hasLine (b : Board) (m : Cell) : Bool :=
  lineIdx.any fun L => lineAll b L m

/-- Source `isDraw`: scan all cells, return `false` at the first blank cell,
`true` when every cell is filled.  The winner is NOT consulted. -/
def isDraw (b : Board) : Bool :=
  cellsList.all fun rc => b.get rc.1 rc.2 != Cell.E

/-- The blank cells of `b` in row-major order (the spec's `legalMoves`). -/
def legalMoves (b : Board) : List (Nat × Nat) :=
  cellsList.filter fun rc => b.get rc.1 rc.2 == Cell.E

/-- The number of blank cells of `b`. -/
def countEmpty (b : Board) : Nat := (legalMoves b).length

/-- Source `tryWinningMove`, scanning the given coordinate list: for each
blank cell, place `symbol`, test `checkWinner(board) == symbol`, and undo
the move on every path.  Returns the found coordinates (if any) together
with the board state left behind by the call. -/
def tryWinningMoveAux (symbol : Cell) :
    List (Nat × Nat) → Board → Option (Nat × Nat) × Board
  | [], b => (none, b)
  | rc :: rest, b =>
    bif b.get rc.1 rc.2 == Cell.E then
      let b1 := b.set rc.1 rc.2 symbol
      bif checkWinner b1 == symbol then
        (some rc, b1.set rc.1 rc.2 Cell.E)
      else
        tryWinningMoveAux symbol rest (b1.set rc.1 rc.2 Cell.E)
    else tryWinningMoveAux symbol rest b

/-- Source `tryWinningMove` over the full row-major scan. -/
def tryWinningMove (b : Board) (symbol : Cell) : Option (Nat × Nat) × Board :=
  tryWinningMoveAux symbol cellsList b

/-- Source `makeEasyAIMove`: picks a random blank cell and places `AI`
there.  The `rand()`-until-blank loop is embedded by the explicit `choice`
parameter, which the driver draws from the blank cells. -/
def makeEasyAIMove (b : Board) (choice : Nat × Nat) : Board :=
  b.set choice.1 choice.2 AI

/-- Source `makeMediumAIMove`: take an immediate `AI` win if one exists,
else block an immediate `PLAYER` win, else fall back to the random easy
move.  The board is threaded through the two `tryWinningMove` calls exactly
as the C++ mutates and restores it. -/
def makeMediumAIMove (b : Board) (easy : Nat × Nat) : Board :=
  let tryWin := tryWinningMove b AI
  match tryWin.1 with
  | some rc => tryWin.2.set rc.1 rc.2 AI
  | none =>
    let tryBlock := tryWinningMove tryWin.2 PLAYER
    match tryBlock.1 with
    | some rc => tryBlock.2.set rc.1 rc.2 AI
    | none => makeEasyAIMove tryBlock.2 easy

/-- Source `evaluate`: `+10` if the `AI` has won, `-10` if the `PLAYER` has
won, `0` otherwise. -/
def evaluate (b : Board) : Int :=
  let winner := checkWinner b
  bif winner == AI then 10
  else bif winner == PLAYER then -10
  else 0

/-- Source `minimax(board, isMaximizing)`.  The C++ recursion terminates
because each recursive call fills one blank cell; here the recursion is
structural on a `fuel` argument, and every caller passes fuel `9`, an upper
bound on the number of blank cells that is proved sufficient below (see the
termination theorem).  When the fuel would run out on a non-terminal board
(which never happens for adequate fuel) the current static score is
returned.  The board is threaded through so that the in-place
place/recurse/revert mutation of the source is embedded explicitly: the
second component is the board state the call leaves behind. -/
def minimax : Nat → Board → Bool → Int × Board
  | 0, board, _ => (evaluate board, board)
  | fuel' + 1, board, isMaximizing =>
    let score := evaluate board
    bif score == 10 || score == -10 || isDraw board then (score, board)
    else
      bif isMaximizing then
        cellsList.foldl
          (fun acc rc =>
            bif acc.2.get rc.1 rc.2 == Cell.E then
              let res := minimax fuel' (acc.2.set rc.1 rc.2 AI) false
              (max acc.1 res.1, res.2.set rc.1 rc.2 Cell.E)
            else acc)
          ((-1000 : Int), board)
      else
        cellsList.foldl
          (fun acc rc =>
            bif acc.2.get rc.1 rc.2 == Cell.E then
              let res := minimax fuel' (acc.2.set rc.1 rc.2 PLAYER) true
              (min acc.1 res.1, res.2.set rc.1 rc.2 Cell.E)
            else acc)
          ((1000 : Int), board)

/-- The scanning loop of source `makeHardAIMove`: for each blank cell in
row-major order, place `AI`, score the move with `minimax(board, false)`,
revert, and keep the move whose score strictly exceeds the best seen so far
(`moveVal > bestVal`).  The accumulator mirrors the C++ locals
`(bestVal, bestRow, bestCol)`, initialized to `(-1000, -1, -1)`; the board
is threaded through the trial placements. -/
def bestMoveScan (board : Board) : (Int × Int × Int) × Board :=
  cellsList.foldl
    (fun acc rc =>
      bif acc.2.get rc.1 rc.2 == Cell.E then
        let res := minimax 9 (acc.2.set rc.1 rc.2 AI) false
        let b2 := res.2.set rc.1 rc.2 Cell.E
        if res.1 > acc.1.1 then ((res.1, ((rc.1 : Int), (rc.2 : Int))), b2)
        else (acc.1, b2)
      else acc)
    (((-1000 : Int), (-1 : Int), (-1 : Int)), board)

/-- Source `makeHardAIMove`: run the scan, then perform the final write
`board[bestRow][bestCol] = AI`.  The C++ write is unguarded; when the
scanned coordinates are out of range (which happens exactly when the board
had no blank cell, so that `bestRow = bestCol = -1` survives) the write is
undefined behaviour, embedded here as `none`. -/
def makeHardAIMove (board : Board) : Option Board :=
  let s := bestMoveScan board
  if 0 ≤ s.1.2.1 ∧ s.1.2.1 < 3 ∧ 0 ≤ s.1.2.2 ∧ s.1.2.2 < 3 then
    some (s.2.set s.1.2.1.toNat s.1.2.2.toNat AI)
  else none

/-- Numeric value of a cell for the base-3 board code: blank `0`,
`PLAYER` `1`, `AI` `2`. -/
def cellVal : Cell → Nat
  | Cell.E => 0
  | Cell.X => 1
  | Cell.O => 2

/-- Base-3 code of a board; the digit of weight `3 ^ (3 * r + c)` is the
value of cell `(r, c)`. -/
def encode (b : Board) : Nat :=
  cellVal b.a00 + 3 * cellVal b.a01 + 9 * cellVal b.a02 +
  27 * cellVal b.a10 + 81 * cellVal b.a11 + 243 * cellVal b.a12 +
  729 * cellVal b.a20 + 2187 * cellVal b.a21 + 6561 * cellVal b.a22

/-- Swap the two marks of a cell, fixing blanks. -/
def swapCell : Cell → Cell
  | Cell.E => Cell.E
  | Cell.X => Cell.O
  | Cell.O => Cell.X

/-- The mirrored board: every cell's mark swapped. -/
def mirror (b : Board) : Board :=
  ⟨swapCell b.a00, swapCell b.a01, swapCell b.a02,
   swapCell b.a10, swapCell b.a11, swapCell b.a12,
   swapCell b.a20, swapCell b.a21, swapCell b.a22⟩

/-- Boards reachable from the blank board by alternating legal play
(either side may start, and play stops once a winner exists): the mover
places their own mark on a blank in-range cell.  The `Cell` index is the
mark of the side to move next. -/
inductive Reach : Board → Cell → Prop where
  | startP : Reach emptyBoard PLAYER
  | startA : Reach emptyBoard AI
  | stepP {b : Board} {rc : Nat × Nat} :
      Reach b PLAYER → checkWinner b = Cell.E → rc.1 < 3 → rc.2 < 3 →
      b.get rc.1 rc.2 = Cell.E → Reach (b.set rc.1 rc.2 PLAYER) AI
  | stepA {b : Board} {rc : Nat × Nat} :
      Reach b AI → checkWinner b = Cell.E → rc.1 < 3 → rc.2 < 3 →
      b.get rc.1 rc.2 = Cell.E → Reach (b.set rc.1 rc.2 AI) PLAYER

/-- Game positions arising when every `AI` move is chosen by
`makeHardAIMove` and the `PLAYER` moves are arbitrary legal moves, from the
blank board with either side moving first; play stops at a terminal board
(winner or draw), matching the `playGame` loop.  The `Bool` index is `true`
when the `AI` is to move. -/
inductive HardReach : Board → Bool → Prop where
  | startA : HardReach emptyBoard true
  | startP : HardReach emptyBoard false
  | stepA {b b' : Board} :
      HardReach b true → checkWinner b = Cell.E → isDraw b = false →
      makeHardAIMove b = some b' → HardReach b' false
  | stepP {b : Board} {rc : Nat × Nat} :
      HardReach b false → checkWinner b = Cell.E → isDraw b = false →
      rc.1 < 3 → rc.2 < 3 → b.get rc.1 rc.2 = Cell.E →
      HardReach (b.set rc.1 rc.2 PLAYER) true

/-- The blank cells whose filling with `symbol` immediately completes a line
for `symbol`, in row-major order (the cells the `tryWinningMove` scan can
report). -/
def winningCells (b : Board) (symbol : Cell) : List (Nat × Nat) :=
  cellsList.filter fun rc =>
    b.get rc.1 rc.2 == Cell.E && (checkWinner (b.set rc.1 rc.2 symbol) == symbol)

/-- The minimax scores of the positions obtained by placing `mark` on each
blank cell of `b`, in row-major order, searched with the given flag. -/
def childVals (fuel : Nat) (b : Board) (mark : Cell) (flag : Bool) : List Int :=
  (legalMoves b).map fun rc => (minimax fuel (b.set rc.1 rc.2 mark) flag).1

/-- The score `makeHardAIMove` assigns to a candidate cell. -/
def hardScore (b : Board) (rc : Nat × Nat) : Int :=
  (minimax 9 (b.set rc.1 rc.2 AI) false).1

/-- The pure content of the `makeHardAIMove` scan: fold the scored
candidates `(score, row, col)` keeping the entry whose score strictly
exceeds the best so far. -/
def pickAux : (Int × Int × Int) → List (Int × Int × Int) → Int × Int × Int
  | acc, [] => acc
  | acc, x :: rest => pickAux (if x.1 > acc.1 then x else acc) rest

section BasicLemmas

/-- Reading the cell just written, for in-range coordinates. -/
theorem get_set_self (b : Board) (r c : Nat) (v : Cell) (hr : r < 3) (hc : c < 3) :
    (b.set r c v).get r c = v := by
  rcases r with _ | _ | _ | r <;> rcases c with _ | _ | _ | c <;>
    first | rfl | omega

/-- Reading any other cell than the one written. -/
theorem get_set_ne (b : Board) (r c p q : Nat) (v : Cell) (h : (p, q) ≠ (r, c)) :
    (b.set r c v).get p q = b.get p q := by
  rcases r with _ | _ | _ | r <;> rcases c with _ | _ | _ | c <;>
    rcases p with _ | _ | _ | p <;> rcases q with _ | _ | _ | q <;>
    first | rfl | exact absurd rfl h

/-- Writing a mark on a blank in-range cell and blanking it again restores
the original board. -/
theorem set_set_cancel (b : Board) (r c : Nat) (v : Cell) (hr : r < 3) (hc : c < 3)
    (h : b.get r c = Cell.E) : (b.set r c v).set r c Cell.E = b := by
  rcases r with _ | _ | _ | r <;> rcases c with _ | _ | _ | c <;>
    first
    | (rcases b with ⟨a00, a01, a02, a10, a11, a12, a20, a21, a22⟩
       simp only [Board.get] at h
       subst h
       rfl)
    | omega

/-- Every coordinate pair in the row-major scan is in range. -/
theorem cellsList_bounds : ∀ rc ∈ cellsList, rc.1 < 3 ∧ rc.2 < 3 := by decide

end BasicLemmas

section LineLemmas

/-- Case analysis for a line scan: either no line in the list is complete
(and the scan reports blank), or the scan reports `X` and `X` has a
complete line in the list, or it reports `O` and `O` has one. -/
theorem scanLines_cases (b : Board) (l : List ((Nat × Nat) × (Nat × Nat) × (Nat × Nat))) :
    (scanLines b l = Cell.E ∧ (l.any fun L => lineAll b L Cell.X) = false ∧
       (l.any fun L => lineAll b L Cell.O) = false)
  ∨ (scanLines b l = Cell.X ∧ (l.any fun L => lineAll b L Cell.X) = true)
  ∨ (scanLines b l = Cell.O ∧ (l.any fun L => lineAll b L Cell.O) = true) := by
  induction l with
  | nil => exact Or.inl ⟨rfl, rfl, rfl⟩
  | cons L rest ih =>
    obtain ⟨p, q, r⟩ := L
    have hT : (b.get p.1 p.2 != Cell.E && b.get p.1 p.2 == b.get q.1 q.2 &&
        b.get q.1 q.2 == b.get r.1 r.2) =
        (lineAll b (p, q, r) Cell.X || lineAll b (p, q, r) Cell.O) := by
      simp only [lineAll]
      generalize b.get p.1 p.2 = x
      generalize b.get q.1 q.2 = y
      generalize b.get r.1 r.2 = z
      cases x <;> cases y <;> cases z <;> rfl
    cases hX : lineAll b (p, q, r) Cell.X with
    | true =>
      refine Or.inr (Or.inl ⟨?_, ?_⟩)
      · have hp : b.get p.1 p.2 = Cell.X := by
          have h0 := hX
          simp only [lineAll, Bool.and_eq_true, beq_iff_eq] at h0
          exact h0.1.1
        simp only [scanLines]
        rw [hT, hX]
        simpa using hp
      · simp [List.any_cons, hX]
    | false =>
      cases hO : lineAll b (p, q, r) Cell.O with
      | true =>
        refine Or.inr (Or.inr ⟨?_, ?_⟩)
        · have hp : b.get p.1 p.2 = Cell.O := by
            have h0 := hO
            simp only [lineAll, Bool.and_eq_true, beq_iff_eq] at h0
            exact h0.1.1
          simp only [scanLines]
          rw [hT, hX, hO]
          simpa using hp
        · simp [List.any_cons, hO]
      | false =>
        have hscan : scanLines b ((p, q, r) :: rest) = scanLines b rest := by
          simp only [scanLines]
          rw [hT, hX, hO]
          rfl
        rcases ih with ⟨h1, h2, h3⟩ | ⟨h1, h2⟩ | ⟨h1, h2⟩
        · exact Or.inl ⟨by rw [hscan, h1],
            by simp [List.any_cons, hX, h2], by simp [List.any_cons, hO, h3]⟩
        · exact Or.inr (Or.inl ⟨by rw [hscan, h1],
            by simp [List.any_cons, h2]⟩)
        · exact Or.inr (Or.inr ⟨by rw [hscan, h1],
            by simp [List.any_cons, h2]⟩)

/-- Case analysis for `checkWinner` in terms of completed lines. -/
theorem checkWinner_cases (b : Board) :
    (checkWinner b = Cell.E ∧ hasLine b Cell.X = false ∧ hasLine b Cell.O = false)
  ∨ (checkWinner b = Cell.X ∧ hasLine b Cell.X = true)
  ∨ (checkWinner b = Cell.O ∧ hasLine b Cell.O = true) :=
  scanLines_cases b lineIdx

/-- Case analysis for the reversed-order scan in terms of completed lines. -/
theorem checkWinnerAltOrder_cases (b : Board) :
    (checkWinnerAltOrder b = Cell.E ∧ hasLine b Cell.X = false ∧ hasLine b Cell.O = false)
  ∨ (checkWinnerAltOrder b = Cell.X ∧ hasLine b Cell.X = true)
  ∨ (checkWinnerAltOrder b = Cell.O ∧ hasLine b Cell.O = true) := by
  have h := scanLines_cases b lineIdx.reverse
  simpa [checkWinnerAltOrder, hasLine, List.any_reverse] using h

/-- When at most one mark has a completed line, the scan order of
`checkWinner` is irrelevant. -/
theorem checkWinner_order_indep (b : Board)
    (h : hasLine b Cell.X = false ∨ hasLine b Cell.O = false) :
    checkWinner b = checkWinnerAltOrder b := by
  rcases h with h | h <;>
    rcases checkWinner_cases b with ⟨e1, f1, f2⟩ | ⟨e1, t1⟩ | ⟨e1, t1⟩ <;>
    rcases checkWinnerAltOrder_cases b with ⟨e2, g1, g2⟩ | ⟨e2, t2⟩ | ⟨e2, t2⟩ <;>
    simp_all

/-- A completed line of a mark different from the one just placed was
already complete before the placement. -/
theorem hasLine_set_of_ne (b : Board) (r c : Nat) (m m' : Cell)
    (hr : r < 3) (hc : c < 3) (hne : m' ≠ m)
    (h : hasLine (b.set r c m) m' = true) : hasLine b m' = true := by
  simp only [hasLine, List.any_eq_true] at h ⊢
  obtain ⟨L, hL, hall⟩ := h
  refine ⟨L, hL, ?_⟩
  simp only [lineAll, Bool.and_eq_true, beq_iff_eq] at hall ⊢
  obtain ⟨⟨h1, h2⟩, h3⟩ := hall
  refine ⟨⟨?_, ?_⟩, ?_⟩
  · by_cases hpq : (L.1.1, L.1.2) = (r, c)
    · exfalso
      obtain ⟨hp1, hp2⟩ := Prod.mk.injEq .. ▸ hpq
      rw [hp1, hp2, get_set_self b r c m hr hc] at h1
      exact hne h1.symm
    · rwa [get_set_ne b r c L.1.1 L.1.2 m hpq] at h1
  · by_cases hpq : (L.2.1.1, L.2.1.2) = (r, c)
    · exfalso
      obtain ⟨hp1, hp2⟩ := Prod.mk.injEq .. ▸ hpq
      rw [hp1, hp2, get_set_self b r c m hr hc] at h2
      exact hne h2.symm
    · rwa [get_set_ne b r c L.2.1.1 L.2.1.2 m hpq] at h2
  · by_cases hpq : (L.2.2.1, L.2.2.2) = (r, c)
    · exfalso
      obtain ⟨hp1, hp2⟩ := Prod.mk.injEq .. ▸ hpq
      rw [hp1, hp2, get_set_self b r c m hr hc] at h3
      exact hne h3.symm
    · rwa [get_set_ne b r c L.2.2.1 L.2.2.2 m hpq] at h3

end LineLemmas

section CountLemmas

/-- The board is full exactly when it has no blank cell. -/
theorem isDraw_iff_no_moves (b : Board) : isDraw b = true ↔ legalMoves b = [] := by
  simp only [isDraw, legalMoves, List.all_eq_true, List.filter_eq_nil_iff]
  constructor
  · intro h rc hrc
    have := h rc hrc
    simp only [bne_iff_ne, ne_eq] at this
    simp [this]
  · intro h rc hrc
    have := h rc hrc
    simp only [beq_iff_eq] at this
    simpa using this

/-- A cell is a legal move exactly when it is an in-scan blank cell. -/
theorem mem_legalMoves (b : Board) (rc : Nat × Nat) :
    rc ∈ legalMoves b ↔ rc ∈ cellsList ∧ b.get rc.1 rc.2 = Cell.E := by
  simp [legalMoves, List.mem_filter]

/-- There are at most nine blank cells. -/
theorem countEmpty_le_nine (b : Board) : countEmpty b ≤ 9 := by
  have h := List.length_filter_le (fun rc : Nat × Nat => b.get rc.1 rc.2 == Cell.E) cellsList
  simpa [countEmpty, legalMoves] using h

/-- A generic counting lemma: turning off a predicate at exactly one listed
element shrinks the filtered length by one. -/
theorem filter_length_succ {α : Type} [DecidableEq α] :
    ∀ (l : List α) (p p' : α → Bool) (a : α), l.Nodup → a ∈ l →
      p a = true → p' a = false → (∀ x ∈ l, x ≠ a → p' x = p x) →
      (l.filter p').length + 1 = (l.filter p).length := by
  intro l
  induction l with
  | nil => intro p p' a _ ha; exact absurd ha (List.not_mem_nil a)
  | cons x rest ih =>
    intro p p' a hnd ha hpa hp'a hcong
    rcases List.mem_cons.mp ha with hxa | hmem
    · obtain ⟨hnotin, -⟩ := List.nodup_cons.mp hnd
      subst hxa
      have hcong' : ∀ y ∈ rest, p' y = p y := by
        intro y hy
        exact hcong y (List.mem_cons_of_mem _ hy) (fun hya => absurd (hya ▸ hy) hnotin)
      rw [List.filter_cons, List.filter_cons, hpa, hp'a]
      simp only [if_pos rfl]
      rw [List.filter_congr hcong']
      simp
    · have hxa : x ≠ a := fun h => (List.nodup_cons.mp hnd).1 (h ▸ hmem)
      have hx : p' x = p x := hcong x (List.mem_cons_self x rest) hxa
      have hrest := ih p p' a (List.nodup_cons.mp hnd).2 hmem hpa hp'a
        (fun y hy hya => hcong y (List.mem_cons_of_mem _ hy) hya)
      rw [List.filter_cons, List.filter_cons, hx]
      cases hpx : p x <;> simp [hpx, hrest]

/-- The row-major scan visits each cell once. -/
theorem cellsList_nodup : cellsList.Nodup := by decide

/-- Placing a mark on a blank in-range cell decreases the number of blank
cells by exactly one. -/
theorem countEmpty_set (b : Board) (rc : Nat × Nat) (m : Cell)
    (hmem : rc ∈ cellsList) (hE : b.get rc.1 rc.2 = Cell.E) (hm : m ≠ Cell.E) :
    countEmpty (b.set rc.1 rc.2 m) + 1 = countEmpty b := by
  have hb := cellsList_bounds rc hmem
  refine filter_length_succ cellsList _ _ rc cellsList_nodup hmem ?_ ?_ ?_
  · simp [hE]
  · rw [get_set_self b rc.1 rc.2 m hb.1 hb.2]
    simpa using hm
  · intro x hx hxa
    have : (x.1, x.2) ≠ (rc.1, rc.2) := by
      intro h
      exact hxa (Prod.ext (congrArg Prod.fst h) (congrArg Prod.snd h))
    rw [get_set_ne b rc.1 rc.2 x.1 x.2 m this]

/-- A board with no blank cell is full. -/
theorem isDraw_of_countEmpty_zero (b : Board) (h : countEmpty b = 0) :
    isDraw b = true := by
  rw [isDraw_iff_no_moves]
  exact List.length_eq_zero.mp h

/-- A non-full board has a blank cell. -/
theorem legalMoves_ne_nil (b : Board) (h : isDraw b = false) : legalMoves b ≠ [] := by
  intro hnil
  rw [(isDraw_iff_no_moves b).mpr hnil] at h
  cases h

end CountLemmas

section EvaluateLemmas

/-- The static score is always one of `-10`, `0`, `10`. -/
theorem evaluate_mem (b : Board) :
    evaluate b = -10 ∨ evaluate b = 0 ∨ evaluate b = 10 := by
  cases h : checkWinner b with
  | E => right; left; simp only [evaluate, h]; rfl
  | X => left; simp only [evaluate, h]; rfl
  | O => right; right; simp only [evaluate, h]; rfl

/-- The static score of a board the `PLAYER` has won. -/
theorem evaluate_of_playerWin (b : Board) (h : checkWinner b = Cell.X) :
    evaluate b = -10 := by
  simp only [evaluate, h]; rfl

/-- The static score of a board the `AI` has won. -/
theorem evaluate_of_aiWin (b : Board) (h : checkWinner b = Cell.O) :
    evaluate b = 10 := by
  simp only [evaluate, h]; rfl

end EvaluateLemmas

section MirrorLemmas

/-- Reading a mirrored board reads the swapped mark. -/
theorem get_mirror (b : Board) (r c : Nat) :
    (mirror b).get r c = swapCell (b.get r c) := by
  rcases r with _ | _ | _ | r <;> rcases c with _ | _ | _ | c <;> rfl

/-- A line-completeness test is invariant under mirroring all three cells. -/
theorem swap_line_test (x y z : Cell) :
    (swapCell x != Cell.E && swapCell x == swapCell y && swapCell y == swapCell z) =
    (x != Cell.E && x == y && y == z) := by
  cases x <;> cases y <;> cases z <;> rfl

/-- Scanning any line list on the mirrored board reports the swapped mark. -/
theorem scanLines_mirror (b : Board) :
    ∀ l, scanLines (mirror b) l = swapCell (scanLines b l) := by
  intro l
  induction l with
  | nil => rfl
  | cons L rest ih =>
    obtain ⟨p, q, r⟩ := L
    simp only [scanLines, get_mirror]
    rw [swap_line_test]
    cases hc : (b.get p.1 p.2 != Cell.E && b.get p.1 p.2 == b.get q.1 q.2 &&
        b.get q.1 q.2 == b.get r.1 r.2) <;> simp [hc, ih]

/-- The winner of the mirrored board is the swapped winner. -/
theorem checkWinner_mirror (b : Board) :
    checkWinner (mirror b) = swapCell (checkWinner b) :=
  scanLines_mirror b lineIdx

/-- The static score of the mirrored board is the exact negation. -/
theorem evaluate_mirror (b : Board) : evaluate (mirror b) = -evaluate b := by
  have hm := checkWinner_mirror b
  cases h : checkWinner b with
  | E => rw [h] at hm; simp only [evaluate, hm, h]; rfl
  | X => rw [h] at hm; simp only [evaluate, hm, h]; rfl
  | O => rw [h] at hm; simp only [evaluate, hm, h]; rfl

end MirrorLemmas

section FoldLemmas

/-- The initial value bounds a max-fold from below. -/
theorem init_le_foldl_max : ∀ (l : List Int) (v : Int), v ≤ l.foldl max v := by
  intro l
  induction l with
  | nil => intro v; exact le_refl v
  | cons x rest ih =>
    intro v
    calc v ≤ max v x := le_max_left v x
    _ ≤ (x :: rest).foldl max v := by rw [List.foldl_cons]; exact ih (max v x)

/-- Every member bounds a max-fold from below. -/
theorem mem_le_foldl_max : ∀ (l : List Int) (v x : Int), x ∈ l → x ≤ l.foldl max v := by
  intro l
  induction l with
  | nil => intro v x hx; exact absurd hx (List.not_mem_nil x)
  | cons a rest ih =>
    intro v x hx
    rw [List.foldl_cons]
    rcases List.mem_cons.mp hx with rfl | hmem
    · calc x ≤ max v x := le_max_right v x
      _ ≤ rest.foldl max (max v x) := init_le_foldl_max rest (max v x)
    · exact ih (max v a) x hmem

/-- A max-fold is either the initial value or one of the members. -/
theorem foldl_max_mem : ∀ (l : List Int) (v : Int),
    l.foldl max v = v ∨ l.foldl max v ∈ l := by
  intro l
  induction l with
  | nil => intro v; exact Or.inl rfl
  | cons a rest ih =>
    intro v
    rw [List.foldl_cons]
    rcases ih (max v a) with h | h
    · rcases max_choice v a with hm | hm
      · exact Or.inl (h.trans hm)
      · exact Or.inr (List.mem_cons.mpr (Or.inl (h.trans hm)))
    · exact Or.inr (List.mem_cons.mpr (Or.inr h))

/-- An upper bound for the initial value and all members bounds a max-fold. -/
theorem foldl_max_le : ∀ (l : List Int) (v M : Int), v ≤ M → (∀ x ∈ l, x ≤ M) →
    l.foldl max v ≤ M := by
  intro l
  induction l with
  | nil => intro v M hv _; exact hv
  | cons a rest ih =>
    intro v M hv hall
    rw [List.foldl_cons]
    exact ih (max v a) M (max_le hv (hall a (List.mem_cons_self a rest)))
      (fun x hx => hall x (List.mem_cons_of_mem a hx))

/-- The initial value bounds a min-fold from above. -/
theorem foldl_min_le_init : ∀ (l : List Int) (v : Int), l.foldl min v ≤ v := by
  intro l
  induction l with
  | nil => intro v; exact le_refl v
  | cons x rest ih =>
    intro v
    calc (x :: rest).foldl min v ≤ min v x := by rw [List.foldl_cons]; exact ih (min v x)
    _ ≤ v := min_le_left v x

/-- A min-fold is bounded above by every member. -/
theorem foldl_min_le_mem : ∀ (l : List Int) (v x : Int), x ∈ l → l.foldl min v ≤ x := by
  intro l
  induction l with
  | nil => intro v x hx; exact absurd hx (List.not_mem_nil x)
  | cons a rest ih =>
    intro v x hx
    rw [List.foldl_cons]
    rcases List.mem_cons.mp hx with rfl | hmem
    · calc rest.foldl min (min v x) ≤ min v x := foldl_min_le_init rest (min v x)
      _ ≤ x := min_le_right v x
    · exact ih (min v a) x hmem

/-- A min-fold is either the initial value or one of the members. -/
theorem foldl_min_mem : ∀ (l : List Int) (v : Int),
    l.foldl min v = v ∨ l.foldl min v ∈ l := by
  intro l
  induction l with
  | nil => intro v; exact Or.inl rfl
  | cons a rest ih =>
    intro v
    rw [List.foldl_cons]
    rcases ih (min v a) with h | h
    · rcases min_choice v a with hm | hm
      · exact Or.inl (h.trans hm)
      · exact Or.inr (List.mem_cons.mpr (Or.inl (h.trans hm)))
    · exact Or.inr (List.mem_cons.mpr (Or.inr h))

/-- A lower bound for the initial value and all members bounds a min-fold. -/
theorem le_foldl_min : ∀ (l : List Int) (v M : Int), M ≤ v → (∀ x ∈ l, M ≤ x) →
    M ≤ l.foldl min v := by
  intro l
  induction l with
  | nil => intro v M hv _; exact hv
  | cons a rest ih =>
    intro v M hv hall
    rw [List.foldl_cons]
    exact ih (min v a) M (le_min hv (hall a (List.mem_cons_self a rest)))
      (fun x hx => hall x (List.mem_cons_of_mem a hx))

end FoldLemmas

section MinimaxLemmas

/-- The loop body of the maximizing branch of `minimax`, named for reuse in
proofs: place `AI` on a blank cell, recurse, revert. -/
def maxStep (fuel : Nat) (acc : Int × Board) (rc : Nat × Nat) : Int × Board :=
  bif acc.2.get rc.1 rc.2 == Cell.E then
    let res := minimax fuel (acc.2.set rc.1 rc.2 AI) false
    (max acc.1 res.1, res.2.set rc.1 rc.2 Cell.E)
  else acc

/-- The loop body of the minimizing branch of `minimax`. -/
def minStep (fuel : Nat) (acc : Int × Board) (rc : Nat × Nat) : Int × Board :=
  bif acc.2.get rc.1 rc.2 == Cell.E then
    let res := minimax fuel (acc.2.set rc.1 rc.2 PLAYER) true
    (min acc.1 res.1, res.2.set rc.1 rc.2 Cell.E)
  else acc

/-- The terminal condition tested by `minimax` before recursing. -/
def terminalTest (b : Board) : Bool :=
  evaluate b == 10 || evaluate b == -10 || isDraw b

/-- On a terminal board (or with zero fuel) `minimax` returns the static
score and leaves the board unchanged. -/
theorem minimax_terminal (fuel : Nat) (b : Board) (m : Bool)
    (h : terminalTest b = true) : minimax fuel b m = (evaluate b, b) := by
  cases fuel with
  | zero => rfl
  | succ n =>
    simp only [terminalTest] at h
    simp only [minimax, h, cond_true]

/-- Unfolding of the maximizing branch on a non-terminal board. -/
theorem minimax_succ_max (n : Nat) (b : Board) (h : terminalTest b = false) :
    minimax (n + 1) b true = cellsList.foldl (maxStep n) ((-1000 : Int), b) := by
  simp only [terminalTest] at h
  simp only [minimax, h, cond_false, cond_true]
  rfl

/-- Unfolding of the minimizing branch on a non-terminal board. -/
theorem minimax_succ_min (n : Nat) (b : Board) (h : terminalTest b = false) :
    minimax (n + 1) b false = cellsList.foldl (minStep n) ((1000 : Int), b) := by
  simp only [terminalTest] at h
  simp only [minimax, h, cond_false]
  rfl

/-- Characterization of the maximizing loop: provided the recursion
restores boards, the fold computes the max of the child scores and restores
the board. -/
theorem foldl_maxStep_eq (n : Nat)
    (hres : ∀ b' : Board, (minimax n b' false).2 = b') :
    ∀ (l : List (Nat × Nat)), (∀ rc ∈ l, rc.1 < 3 ∧ rc.2 < 3) →
    ∀ (v : Int) (b : Board),
    l.foldl (maxStep n) (v, b) =
      (((l.filter fun rc => b.get rc.1 rc.2 == Cell.E).map
          fun rc => (minimax n (b.set rc.1 rc.2 AI) false).1).foldl max v, b) := by
  intro l
  induction l with
  | nil => intro _ v b; rfl
  | cons rc rest ih =>
    intro hb v b
    obtain ⟨hr, hc⟩ := hb rc (List.mem_cons_self _ _)
    rw [List.foldl_cons]
    cases hE : (b.get rc.1 rc.2 == Cell.E) with
    | false =>
      have hstep : maxStep n (v, b) rc = (v, b) := by simp [maxStep, hE]
      rw [hstep, ih (fun x hx => hb x (List.mem_cons_of_mem _ hx)) v b]
      rw [List.filter_cons]
      simp [hE]
    | true =>
      have hEE : b.get rc.1 rc.2 = Cell.E := by simpa using hE
      have hstep : maxStep n (v, b) rc =
          (max v (minimax n (b.set rc.1 rc.2 AI) false).1, b) := by
        simp only [maxStep, hE, cond_true]
        rw [hres (b.set rc.1 rc.2 AI), set_set_cancel b rc.1 rc.2 AI hr hc hEE]
      rw [hstep, ih (fun x hx => hb x (List.mem_cons_of_mem _ hx))
        (max v (minimax n (b.set rc.1 rc.2 AI) false).1) b]
      rw [List.filter_cons]
      simp [hE]

/-- Characterization of the minimizing loop. -/
theorem foldl_minStep_eq (n : Nat)
    (hres : ∀ b' : Board, (minimax n b' true).2 = b') :
    ∀ (l : List (Nat × Nat)), (∀ rc ∈ l, rc.1 < 3 ∧ rc.2 < 3) →
    ∀ (v : Int) (b : Board),
    l.foldl (minStep n) (v, b) =
      (((l.filter fun rc => b.get rc.1 rc.2 == Cell.E).map
          fun rc => (minimax n (b.set rc.1 rc.2 PLAYER) true).1).foldl min v, b) := by
  intro l
  induction l with
  | nil => intro _ v b; rfl
  | cons rc rest ih =>
    intro hb v b
    obtain ⟨hr, hc⟩ := hb rc (List.mem_cons_self _ _)
    rw [List.foldl_cons]
    cases hE : (b.get rc.1 rc.2 == Cell.E) with
    | false =>
      have hstep : minStep n (v, b) rc = (v, b) := by simp [minStep, hE]
      rw [hstep, ih (fun x hx => hb x (List.mem_cons_of_mem _ hx)) v b]
      rw [List.filter_cons]
      simp [hE]
    | true =>
      have hEE : b.get rc.1 rc.2 = Cell.E := by simpa using hE
      have hstep : minStep n (v, b) rc =
          (min v (minimax n (b.set rc.1 rc.2 PLAYER) true).1, b) := by
        simp only [minStep, hE, cond_true]
        rw [hres (b.set rc.1 rc.2 PLAYER), set_set_cancel b rc.1 rc.2 PLAYER hr hc hEE]
      rw [hstep, ih (fun x hx => hb x (List.mem_cons_of_mem _ hx))
        (min v (minimax n (b.set rc.1 rc.2 PLAYER) true).1) b]
      rw [List.filter_cons]
      simp [hE]

/-- The search leaves the board exactly as it found it: every hypothetical
placement of the minimax recursion is reverted on every path. -/
theorem minimax_board_restore : ∀ (fuel : Nat) (b : Board) (m : Bool),
    (minimax fuel b m).2 = b := by
  intro fuel
  induction fuel with
  | zero => intro b m; rfl
  | succ n ih =>
    intro b m
    cases hterm : terminalTest b with
    | true => rw [minimax_terminal (n + 1) b m hterm]
    | false =>
      cases m with
      | true =>
        rw [minimax_succ_max n b hterm,
          foldl_maxStep_eq n (fun b' => ih b' false) cellsList cellsList_bounds (-1000) b]
      | false =>
        rw [minimax_succ_min n b hterm,
          foldl_minStep_eq n (fun b' => ih b' true) cellsList cellsList_bounds 1000 b]

/-- Value recurrence of the maximizing branch: the score of a non-terminal
maximizing node is the max-fold of its child scores. -/
theorem minimax_val_max (n : Nat) (b : Board) (h : terminalTest b = false) :
    (minimax (n + 1) b true).1 = (childVals n b AI false).foldl max (-1000) := by
  rw [minimax_succ_max n b h,
    foldl_maxStep_eq n (fun b' => minimax_board_restore n b' false)
      cellsList cellsList_bounds (-1000) b]
  rfl

/-- Value recurrence of the minimizing branch. -/
theorem minimax_val_min (n : Nat) (b : Board) (h : terminalTest b = false) :
    (minimax (n + 1) b false).1 = (childVals n b PLAYER true).foldl min 1000 := by
  rw [minimax_succ_min n b h,
    foldl_minStep_eq n (fun b' => minimax_board_restore n b' true)
      cellsList cellsList_bounds 1000 b]
  rfl

end MinimaxLemmas

section AdequacyLemmas

/-- A non-terminal board is not full. -/
theorem not_draw_of_not_terminal (b : Board) (h : terminalTest b = false) :
    isDraw b = false := by
  simp only [terminalTest, Bool.or_eq_false_iff] at h
  exact h.2

/-- A non-terminal board has a blank cell. -/
theorem countEmpty_pos (b : Board) (h : terminalTest b = false) :
    1 ≤ countEmpty b :=
  List.length_pos.mpr (legalMoves_ne_nil b (not_draw_of_not_terminal b h))

/-- Counting restated for a legal move. -/
theorem countEmpty_child (b : Board) (rc : Nat × Nat) (m : Cell)
    (hmem : rc ∈ legalMoves b) (hm : m ≠ Cell.E) :
    countEmpty (b.set rc.1 rc.2 m) + 1 = countEmpty b := by
  obtain ⟨hcl, hE⟩ := (mem_legalMoves b rc).mp hmem
  exact countEmpty_set b rc m hcl hE hm

/-- Any fuel at least the number of blank cells computes the same result as
fuel exactly the number of blank cells: the recursion is in truth founded
on the strictly decreasing count of blank cells, and the fuel is an
artifact of the embedding. -/
theorem minimax_fuel_adequate_aux : ∀ (fuel g : Nat) (b : Board) (m : Bool),
    g ≤ fuel → countEmpty b ≤ g → minimax g b m = minimax (countEmpty b) b m := by
  intro fuel
  induction fuel with
  | zero =>
    intro g b m hg hce
    have hg0 : g = 0 := Nat.le_zero.mp hg
    subst hg0
    have hce0 : countEmpty b = 0 := Nat.le_zero.mp hce
    rw [hce0]
  | succ n ih =>
    intro g b m hg hce
    cases hterm : terminalTest b with
    | true =>
      rw [minimax_terminal g b m hterm, minimax_terminal (countEmpty b) b m hterm]
    | false =>
      have h1 : 1 ≤ countEmpty b := countEmpty_pos b hterm
      obtain ⟨ce', hce'⟩ : ∃ ce', countEmpty b = ce' + 1 :=
        ⟨countEmpty b - 1, by omega⟩
      obtain ⟨g', hg'⟩ : ∃ g', g = g' + 1 := ⟨g - 1, by omega⟩
      subst hg'
      have hchild : ∀ (mark : Cell) (flag : Bool), mark ≠ Cell.E →
          childVals g' b mark flag = childVals ce' b mark flag := by
        intro mark flag hmk
        apply List.map_congr_left
        intro rc hrc
        have hcc : countEmpty (b.set rc.1 rc.2 mark) = ce' := by
          have := countEmpty_child b rc mark hrc hmk
          omega
        have e1 : minimax g' (b.set rc.1 rc.2 mark) flag
            = minimax (countEmpty (b.set rc.1 rc.2 mark)) (b.set rc.1 rc.2 mark) flag :=
          ih g' (b.set rc.1 rc.2 mark) flag (by omega) (by omega)
        have e2 : minimax ce' (b.set rc.1 rc.2 mark) flag
            = minimax (countEmpty (b.set rc.1 rc.2 mark)) (b.set rc.1 rc.2 mark) flag := by
          rw [hcc]
        rw [e1, e2]
      rw [hce']
      cases m with
      | true =>
        rw [minimax_succ_max g' b hterm, minimax_succ_max ce' b hterm,
          foldl_maxStep_eq g' (fun b' => minimax_board_restore g' b' false)
            cellsList cellsList_bounds (-1000) b,
          foldl_maxStep_eq ce' (fun b' => minimax_board_restore ce' b' false)
            cellsList cellsList_bounds (-1000) b]
        have h2 := hchild AI false (by simp [AI])
        exact congrArg (fun l : List Int => (l.foldl max (-1000), b)) h2
      | false =>
        rw [minimax_succ_min g' b hterm, minimax_succ_min ce' b hterm,
          foldl_minStep_eq g' (fun b' => minimax_board_restore g' b' true)
            cellsList cellsList_bounds 1000 b,
          foldl_minStep_eq ce' (fun b' => minimax_board_restore ce' b' true)
            cellsList cellsList_bounds 1000 b]
        have h2 := hchild PLAYER true (by simp [PLAYER])
        exact congrArg (fun l : List Int => (l.foldl min 1000, b)) h2

/-- Fuel adequacy, public form. -/
theorem minimax_fuel_adequate (fuel : Nat) (b : Board) (m : Bool)
    (h : countEmpty b ≤ fuel) : minimax fuel b m = minimax (countEmpty b) b m :=
  minimax_fuel_adequate_aux fuel fuel b m (le_refl fuel) h

/-- The minimax score is always one of `-10`, `0`, `10`: the sentinels
`-1000` and `1000` never escape. -/
theorem minimax_val_mem : ∀ (fuel : Nat) (b : Board) (m : Bool),
    (minimax fuel b m).1 = -10 ∨ (minimax fuel b m).1 = 0 ∨
      (minimax fuel b m).1 = 10 := by
  intro fuel
  induction fuel with
  | zero => intro b m; exact evaluate_mem b
  | succ n ih =>
    intro b m
    cases hterm : terminalTest b with
    | true => rw [minimax_terminal (n + 1) b m hterm]; exact evaluate_mem b
    | false =>
      have hnil : legalMoves b ≠ [] :=
        legalMoves_ne_nil b (not_draw_of_not_terminal b hterm)
      obtain ⟨rc, hrc⟩ : ∃ rc, rc ∈ legalMoves b := List.exists_mem_of_ne_nil _ hnil
      cases m with
      | true =>
        rw [minimax_val_max n b hterm]
        have hmem0 : (minimax n (b.set rc.1 rc.2 AI) false).1 ∈ childVals n b AI false :=
          List.mem_map_of_mem _ hrc
        have hlow : (-10 : Int) ≤ (minimax n (b.set rc.1 rc.2 AI) false).1 := by
          rcases ih (b.set rc.1 rc.2 AI) false with h | h | h <;> omega
        rcases foldl_max_mem (childVals n b AI false) (-1000) with h | h
        · exfalso
          have := mem_le_foldl_max (childVals n b AI false) (-1000) _ hmem0
          omega
        · obtain ⟨x, hx, hxv⟩ := List.mem_map.mp h
          rw [← hxv]
          exact ih (b.set x.1 x.2 AI) false
      | false =>
        rw [minimax_val_min n b hterm]
        have hmem0 : (minimax n (b.set rc.1 rc.2 PLAYER) true).1 ∈ childVals n b PLAYER true :=
          List.mem_map_of_mem _ hrc
        have hhigh : (minimax n (b.set rc.1 rc.2 PLAYER) true).1 ≤ 10 := by
          rcases ih (b.set rc.1 rc.2 PLAYER) true with h | h | h <;> omega
        rcases foldl_min_mem (childVals n b PLAYER true) 1000 with h | h
        · exfalso
          have := foldl_min_le_mem (childVals n b PLAYER true) 1000 _ hmem0
          omega
        · obtain ⟨x, hx, hxv⟩ := List.mem_map.mp h
          rw [← hxv]
          exact ih (b.set x.1 x.2 PLAYER) true

end AdequacyLemmas

section ScanLemmas

/-- The loop body of the `makeHardAIMove` scan, named for reuse in proofs. -/
def scanStep (acc : (Int × Int × Int) × Board) (rc : Nat × Nat) :
    (Int × Int × Int) × Board :=
  bif acc.2.get rc.1 rc.2 == Cell.E then
    let res := minimax 9 (acc.2.set rc.1 rc.2 AI) false
    let b2 := res.2.set rc.1 rc.2 Cell.E
    if res.1 > acc.1.1 then ((res.1, ((rc.1 : Int), (rc.2 : Int))), b2)
    else (acc.1, b2)
  else acc

/-- The scored candidate moves of the hard scan, in row-major order. -/
def scored (b : Board) : List (Int × Int × Int) :=
  (legalMoves b).map fun rc => (hardScore b rc, ((rc.1 : Int), (rc.2 : Int)))

/-- Characterization of the scan loop: it reduces to the pure pick fold
over the scored candidates and restores the board. -/
theorem foldl_scanStep_eq :
    ∀ (l : List (Nat × Nat)), (∀ rc ∈ l, rc.1 < 3 ∧ rc.2 < 3) →
    ∀ (acc : Int × Int × Int) (b : Board),
    l.foldl scanStep (acc, b) =
      (pickAux acc ((l.filter fun rc => b.get rc.1 rc.2 == Cell.E).map
          fun rc => (hardScore b rc, ((rc.1 : Int), (rc.2 : Int)))), b) := by
  intro l
  induction l with
  | nil => intro _ acc b; rfl
  | cons rc rest ih =>
    intro hb acc b
    obtain ⟨hr, hc⟩ := hb rc (List.mem_cons_self _ _)
    rw [List.foldl_cons]
    cases hE : (b.get rc.1 rc.2 == Cell.E) with
    | false =>
      have hstep : scanStep (acc, b) rc = (acc, b) := by simp [scanStep, hE]
      rw [hstep, ih (fun x hx => hb x (List.mem_cons_of_mem _ hx)) acc b]
      rw [List.filter_cons]
      simp [hE]
    | true =>
      have hEE : b.get rc.1 rc.2 = Cell.E := by simpa using hE
      have hstep : scanStep (acc, b) rc =
          (if hardScore b rc > acc.1 then
            (hardScore b rc, ((rc.1 : Int), (rc.2 : Int))) else acc, b) := by
        simp only [scanStep, hE, cond_true]
        rw [minimax_board_restore 9 (b.set rc.1 rc.2 AI) false,
          set_set_cancel b rc.1 rc.2 AI hr hc hEE]
        unfold hardScore
        split_ifs with hcmp
        · rfl
        · rfl
      rw [hstep, ih (fun x hx => hb x (List.mem_cons_of_mem _ hx)) _ b]
      rw [List.filter_cons]
      simp only [hE, if_pos, List.map_cons]
      rfl

/-- The scan equals the pure pick fold over the scored legal moves. -/
theorem bestMoveScan_eq_pick (b : Board) :
    bestMoveScan b = (pickAux ((-1000 : Int), (-1 : Int), (-1 : Int)) (scored b), b) :=
  foldl_scanStep_eq cellsList cellsList_bounds ((-1000 : Int), (-1 : Int), (-1 : Int)) b

/-- Characterization of the pick fold: either no candidate beats the
accumulator (which is then returned), or the result is the first candidate
achieving the maximal score: candidates before it score strictly less, and
no candidate scores more. -/
theorem pickAux_spec : ∀ (l : List (Int × Int × Int)) (acc : Int × Int × Int),
    (pickAux acc l = acc ∧ ∀ x ∈ l, x.1 ≤ acc.1)
  ∨ (∃ k x, l.get? k = some x ∧ pickAux acc l = x ∧ acc.1 < x.1 ∧
      (∀ j y, j < k → l.get? j = some y → y.1 < x.1) ∧
      (∀ j y, l.get? j = some y → y.1 ≤ x.1)) := by
  intro l
  induction l with
  | nil => intro acc; exact Or.inl ⟨rfl, by simp⟩
  | cons a rest ih =>
    intro acc
    by_cases hcmp : a.1 > acc.1
    · have hstep : pickAux acc (a :: rest) = pickAux a rest := by
        simp [pickAux, if_pos hcmp]
      rcases ih a with ⟨h1, h2⟩ | ⟨k, x, hk, hpick, hgt, hbefore, hall⟩
      · refine Or.inr ⟨0, a, rfl, by rw [hstep, h1], hcmp, ?_, ?_⟩
        · intro j y hj _; omega
        · intro j y hy
          cases j with
          | zero =>
            have hya : a = y := by simpa using hy
            subst hya
            exact le_refl _
          | succ j' => exact h2 y (List.get?_mem hy)
      · refine Or.inr ⟨k + 1, x, by simpa using hk, by rw [hstep]; exact hpick,
          lt_trans hcmp hgt, ?_, ?_⟩
        · intro j y hj hy
          cases j with
          | zero =>
            have hya : a = y := by simpa using hy
            subst hya
            exact hgt
          | succ j' => exact hbefore j' y (by omega) (by simpa using hy)
        · intro j y hy
          cases j with
          | zero =>
            have hya : a = y := by simpa using hy
            subst hya
            exact le_of_lt hgt
          | succ j' => exact hall j' y (by simpa using hy)
    · have hstep : pickAux acc (a :: rest) = pickAux acc rest := by
        simp [pickAux, if_neg hcmp]
      have ha : a.1 ≤ acc.1 := not_lt.mp hcmp
      rcases ih acc with ⟨h1, h2⟩ | ⟨k, x, hk, hpick, hgt, hbefore, hall⟩
      · refine Or.inl ⟨by rw [hstep, h1], ?_⟩
        intro x hx
        rcases List.mem_cons.mp hx with rfl | hmem
        · exact ha
        · exact h2 x hmem
      · refine Or.inr ⟨k + 1, x, by simpa using hk, by rw [hstep]; exact hpick, hgt, ?_, ?_⟩
        · intro j y hj hy
          cases j with
          | zero =>
            have hya : a = y := by simpa using hy
            subst hya
            exact lt_of_le_of_lt ha hgt
          | succ j' => exact hbefore j' y (by omega) (by simpa using hy)
        · intro j y hy
          cases j with
          | zero =>
            have hya : a = y := by simpa using hy
            subst hya
            exact le_trans ha (le_of_lt hgt)
          | succ j' => exact hall j' y (by simpa using hy)

end ScanLemmas

section TryWinningLemmas

/-- Characterization of the `tryWinningMove` scan over any coordinate
list: it returns the first blank cell whose filling completes a line for
the symbol, and leaves the board as it found it. -/
theorem tryWinningMoveAux_eq (symbol : Cell) :
    ∀ (l : List (Nat × Nat)), (∀ rc ∈ l, rc.1 < 3 ∧ rc.2 < 3) → ∀ b : Board,
    tryWinningMoveAux symbol l b =
      ((l.filter fun rc => b.get rc.1 rc.2 == Cell.E &&
          (checkWinner (b.set rc.1 rc.2 symbol) == symbol)).head?, b) := by
  intro l
  induction l with
  | nil => intro _ b; rfl
  | cons rc rest ih =>
    intro hb b
    obtain ⟨hr, hc⟩ := hb rc (List.mem_cons_self _ _)
    cases hE : (b.get rc.1 rc.2 == Cell.E) with
    | false =>
      have hstep : tryWinningMoveAux symbol (rc :: rest) b =
          tryWinningMoveAux symbol rest b := by
        simp only [tryWinningMoveAux, hE, cond_false]
      rw [hstep, ih (fun x hx => hb x (List.mem_cons_of_mem _ hx)) b]
      rw [List.filter_cons]
      simp [hE]
    | true =>
      have hEE : b.get rc.1 rc.2 = Cell.E := by simpa using hE
      cases hw : (checkWinner (b.set rc.1 rc.2 symbol) == symbol) with
      | true =>
        have hstep : tryWinningMoveAux symbol (rc :: rest) b =
            (some rc, (b.set rc.1 rc.2 symbol).set rc.1 rc.2 Cell.E) := by
          simp only [tryWinningMoveAux, hE, hw, cond_true]
        rw [hstep, set_set_cancel b rc.1 rc.2 symbol hr hc hEE]
        rw [List.filter_cons]
        simp [hE, hw]
      | false =>
        have hstep : tryWinningMoveAux symbol (rc :: rest) b =
            tryWinningMoveAux symbol rest ((b.set rc.1 rc.2 symbol).set rc.1 rc.2 Cell.E) := by
          simp only [tryWinningMoveAux, hE, hw, cond_true, cond_false]
        rw [hstep, set_set_cancel b rc.1 rc.2 symbol hr hc hEE,
          ih (fun x hx => hb x (List.mem_cons_of_mem _ hx)) b]
        rw [List.filter_cons]
        simp [hE, hw]

/-- The `tryWinningMove` call returns the first winning cell in row-major
order and restores the board. -/
theorem tryWinningMove_eq (b : Board) (symbol : Cell) :
    tryWinningMove b symbol = ((winningCells b symbol).head?, b) :=
  tryWinningMoveAux_eq symbol cellsList cellsList_bounds b

end TryWinningLemmas

/-- A precomputed certificate table for the safety of the hard strategy:
for each board code (base-3, blank 0 / PLAYER 1 / AI 2, digit weight
`3 ^ (3r + c)`) reached with the AI to move in the certified game trees,
the base-16 digit of weight `16 ^ code` is `3r + c` for a safe AI move
`(r, c)` on that board.  Only the checked recurrence below matters: the
table is data, not trusted. -/
def oTable : Nat := 1424113380910091334792241058889438359509292376091104129837887755162299701703348225321457997921631350229324778985051876362786907813992324607092971328869338645654897760482484812631154641982996916133863909784768043062936938668415393857994793386650624645717385135394748002568518270193126928682375955689075277316452535966780716950325190865523132242494680743090908441974759378857319254169147220861846883521125707837376839973470336701117848255630974572622293372130053994024316287178192196129363256846383869663245208572438460930085404943556179315780740215617496955099695651517293795981284842901673230522988984597335976822323640600105169212935906580408208195723803206536199583288188868831376538185656730379152397118742674149199820334030015513174638830255437054772704283121789296992345791179871444260936148615795209002662214277996885157881788476862226171724766891922541448527655836671361498813456545776566003632372607971929892975198006024652446574828652616068846331062503515616968379683469633230596999729184072573801732178416205905874437026949322528904566067706758726667723047208358838232918857529455706670344629360193158341734891038921259741106843293622265782561172238052752582694482801912168615684012267457931018362560249228836378352745664168894929236977933113577968702180107610658877944857715698234937466374419358310284034553865746048492881409699895697550505310265383720517363813031656230893344991228704022298952710859418215413040680803311226548390525346374517731887665230368421002511471181907067453488132741557088223138234082605617999172071595233729702683171335612276473425468283296100673999254089695092387523801154165739828897556031437082897811404257656947238848892225448041968164661380378183959396117263391788522623688246658992058729435329467301621922646019020794958877909785549968616146520434234547174858863657701631639150981108836814996216147171929402956384723630274904796188332547476418171540089047454750594978756055568519002895411335219336181453417944181643301229105429738426880312703055955108258347236796137801125309846158511650640746574355200701053349676644105463962155338983096683808321805946668363409400423585140223433219914599468551208066064841448575864154992975177232586127992055405756435173016063853666381441761087864419514441893705838981182534600959769052979831783790522286955642929204660440807924138586317789403831559553990911457371279763534589482015886430779322464164915277916729497412012978851868199833477990378865700875822930691403345933075345541265669051326522333674915012283214576079945827754675162430741927745639614710915862564778801311239989386072000164771033760211702206110610447972112416745351930183746528433020197344964302040572515476990328673553047230445780803334550028612909983602826901591037629401295375958917433481629408520191891437446628204253684998379823771016158451526437775252690162531080696020050480230597040467379626722658971475751815577859398408149622041884399768802877310646275820516061806947921083083155941771111544198694834053423702387205031705018278039205430992604608156299964624304666974542666952045830626303555799081289297806824756844359550367763057560696131681479424965897446138158070251216149388137903675970159766606412692590897146824406344841009355085002514836457961345612441121680642710587257874165611706455833383244648430338186598258871238035232658326632239837660019487327593960400936349996850551362924130350961224462906268281663369537549968428612463353456285465480495988318146314755679897687212511957074428158788776411301287000831375184490940170594054822419286878775468618422329674481036397811369741341361044083498506681427022589475785800077177458406131363877066843837256761585061542617416828355653828528752783446268408823241125353756589789198195769896087261346133702487888605588070395616732319897278355582267193405083872123304946763602675680041763483799162512998739035756012407200797347689486201434087311124106631312764411614983105287473815238036364941311549875164100609166343565223126900929458299811474361644238872639392406225377836703172618534054983065379995317561089255701990276855498847927035700653501314754732960148766848460700986757776744920842237420353122467625442252885277441507953609825572593039702736771087154351687042505453216411063407727807624716184354862564459982693257839146313276144629623885666916873381730738027298169350262696166625976577196706988475974003379122209239148365949532487750795757149386914848602262593907589744287736620972252260965212201143428740852799279944352245910199175721696873307806440328259410678091424161990569890292623279139496185601513504075463343451071600473809438671710017366109504678833184468374514392598910841291603907597641159235540644997657253696146961703489998531885292825341482053702827272020297739992964373325393882496459935047187488506355284317995197935530331940226975000721297371760132772714571774075349794590521466583792578718890196818736296866182580811327766855965123330394014430257811359575388746183323357600595661808141004677935504693411717824006206687181321760207872254331316099383198878254236868641629878217365164781425352214989977003072634402039972127013522110292982280180605872901433817917121336825213535458250949891531399086790671578180093871722948271298074428876393748133304041381809975288996586639539106465696355550891268917415246737744093427538046235159730646854639807361736778495177981536983342643484928757863150433667515470892674052034623080672639793283275166886640095904086047439266638656481958319378812560383759665925572730521832554769661967571266738117049261823649295226169318435108225904204570957098593319640183360392672146622840029229549847079191001413807397888042100486542066038674750551667548204724647965780110798459942088628861025095684474072741436150791520828040836367475804719884884707506156289980565266053009921137208959158132358821358256131966172402210985096645811700162872668514132273998082517406250119092603385885592288764661898795819183832328205896154149828109488387469595062121099922531818193097120283104608181583865236128069469227843560305875591585140472043158144866503222789310195680102065167006610917405015586684311348330949382617683982863385948426632153534400729043164546995100955750504088561170008113969448361330719081257939523203998452787171722698094081614729592700744276685233131204810251162571110156869680536921226208003143702951799184286331046250807479252653113590049299566969808113503412358920048708212322265814723925051646246620213361817899888918720052435025036731083349158608970817812025285955903242404552344075792567836229540719105371642088476312641035103714733111083048761382922629854060241405823788950685690221215914567047297484566174719756455245944093303001940479089372486118114459428910580507074140874613842107856188942385029830285128819077131242635927170485530964062375151293663933463583578744517320933897111701679718821618293802776444049053870824419418852541468255773077967281024676117808215434994845179197801491602717936108600452414430440693853381615091382880809724113053085811529998532080288790606077836044984092841863786459549752375052173056042041164220737922574904151274109232494695659724524682428162196833744539864086540426612748177059455887190290898921327616442977424066030840978261770334374632042743371820647262316718159258554454343725166779738447010989537461940064897684371551197189879886738828982274155017234698278558577915073589211349989150709167142066914126662008883467508529791522862946112188523276288656084745459283442351446423908828362617401335479942163184507473392310398231385342543834228350956824377876089457012519998118823283427088170491190693602697900242817399317271203798154885176921918989590126652069672594319484682464101190255221282235797920715025329158262045358990478083669074802100714804626600791342033731628572534056560884475404008186193958741439683662649638068130141520581695063873740846877648372027243629239220137958865363790330513127034558220543493050636323637288029336897579387091493736513148591827811425802862273568819403752010084082653360698249484632945513709612641164228277976940451978763270731708135199473774492269790596581073390399765644904671759304733118831109822257886147731957000070610077064694472965345650849714481887058088974518544938899846609524943756162216039608899867164269383458230000682693823241539760797384469784873957128617843239198163948601339630867535613004595677180182050605332175634497635693085619047170009455628392655819214344016197970907484383193682550050089651246693337097863450704863953566872514063013747726956346960704105766803731975182584308961056799430388431665666221373758227423907599020204124775494914128069757323087734491225841376735562546458146176025884112588258709670058634097244953591985726747687377175658643035096504038535639111565629431300275918163000379668232786015552238718919715051785894291379816554036558350868327354367188402844442626696971105174848024499622827066166656092166536096242854271662709116505742937214578731219949139102369645784897771500982370122056891534414203794826543500977605174255641780667749073412641032243749457644981692820521551436622340121781396113356916949095238496035634315480700443631727943867130005128493474180023484773859652703393088515935729217174159881732249569326563272100153895329063791931273981539320931968041062670799167049697712472477549667545601169000843179198647233800743267565482394880542122681216890843672873573263569714276243695292963131745631359741299403125560089121793227555539220236328488496582956051673371677031018194764770046679775905629147064397811449191045211560960267523462389187422804862453642306306862841307580901873475260401274778681085149803985377196925354329519646012592653524656807205056092504735153736971053789657294967417381648698612071391658424070218956197514556553675318399028288606052955166235433487321658975536035742462584253572946620605043891826882206484450558631656355792560708323197765933457692906702372172126374332156474761108825956597197074739855079969791639276438278894611119401968078262794476273357958612569787836901212776818381143788900795808297652994684248328880390900087198707057847605432373920182776692693518231575895770716141833495540299048251289833222854166329167150473426370949164285738865643707199892499380351443649427678309359812611861331793515362779316048494898803541827322683210213925505531890749498570377137728268339617431890586519979777593704772782267473395968769910043450790283183159278079881722933175385789001719518467442576641889934751049068021170483251040340951616283991976748555055868358486544825339816335752866612592118345649673344089180268397330605242465329977511172021199711050267505561784769839371109036396360749306035289792064144390675217986449606046301882856443746201362277454471958987769945455776235224808042590414661217726118899855861000987068659694599605265036937681273861389291465710987815992176111738895448504406370682636646366393043153873380419996851972731487061724312901975648609705164685441289535898811785491252285054951221435273052055155898203138035496316865539135016654829366295861144840826198348879393842376352288417395776547801745032750900203513762485516010297737172105198537619674262284180699036272434537937214025991357417680533518320555048221519799144846226824484809430845887313738514572628738742737888333106704762979756514541011018138369424402744422179221952230322473012674693107243604944883275021828186336973890319209360511285846871485892127616237522095460749518994628840340624247548084103592683585408201508118667724666940017933119387852128300031076228199417050727230135139252607919812267485578801112037849085839523249835558656156787698232155933169642217275157358804482521175352291767424411834682089671601807085768317951826852644318616403490912844863884154779713420222644198802042516175375667559470160647297256759800424953243003075002325235763126514865566140458565144895146762230222579679155502207788502991409750115204137020392169843012708923511546342771008243161389712924934275436980653876845592076368362162269254164109497716213970992891415616557047290643136666902304317553646380828414570915375503339639728915911001801122231346378091248350595486462752304215544143288414243661193617242034913245443732297869651199094378683914433125698357876698088393200759719866447417851257593951463600369109441133121958881695873418031348674263640196840308037646864389020434255441340127069442957711722104585304373176974994978650211372556619875647576121068199774825638431077264363548709099333433899497618359490398858165326493261375318125592199631590167716999535070898343536579508961975056473631775871079901933132082948184094288168497046780175296097972235697917767885529204859157467175871898012551736478921579799266846444051892777021957634679537978810484848866765473676227548105231625613880793680021528272499106262049058688348369048644266623190698429038772592419296827774636767488460003176017369470867964664236154875163950841177817589205798208499778000403075637101193412088782360601505323335832072599558571513122164285123280685621659727591903220525302990316471612729385259555995719545403397254720382243597270689915718173377201846922093381561658249580522521779334284595714345037936088203228390514580953122628017565452476283035479098510732802180177786143484939294622849954924916339431934293055994024565036389176254392625121705444709141049537217402603326753093652084543461093616342966028029113766509419246576103937702533244421172919032600074107444595914669285247684353509762773024951551970270123279396359839509821796150447766972329348046211834965417461504876514325471870905923305654249933655259068603583689396756999798932205326824895436551064762847638889149570673150715571802708602145376717812928686564170414342350138368244518116311525147706976511452272246893891928098892526238730225310957002345543358262431524151403423453658906387731995144600103844612083487364907652443595908207161416727439686031387587806239913365915442740357706038661396930445001462238970398238829180825559130718584815356598495403966311288720132854018823905675880241823144392721815481456206034805484939786116044833636193232437461377139448434029394945921113792285131317070805863405511089222975526912910692805639093066269474302441000141147607235629992372657808254285137942505775430554700594107023043564359576151919547451832580858874493562687869040267518144723893998515235946003923260658553992331549411808365293938843574772279190615272912044540915095768555705548912879011470082694766217727376153587301477512761321185724226288783375600589005617217154941339195257057325958830614249981508197409918115599223943279869464326851539083205457481728705038634022162393414649749092597184945743434650261583983574605306137110221321043333889874789426475327511415486006773299956919947786023455582673334447802663861134549113395777848069387691073171938787646702626522198144059155078964637809161984942423356425694603231609990114083527939361826293102944199830329463704257323755218502501850348981619174799768637243482332207372018889593071020606689968731376846461799550763997274574059736805175691060633392968012061543129544645139617452883990351341550782258250813765372908129264722959690627617173540606065043357818874679539849844575796965401998030679201581035402454657461988343028280275291580560703706774894277653149204156348497809941418575475204131180087297884263531378475794190106023391621421898716384102485971193827303008389380385496977898458704223862091286968107475422244794703498755763220028306233264133589520571868041335169365250657984222170768724579841838753188895578226433741262999984899256037809671271257302396438100139771024229242943767257053615109653505343796038007556512659497410803458617286131751408376430864495425194892652622340286893020319457792414325091322724469140443544953628158387944880290393395714021458696368462469225375713158913249674332501843966609282511735673088731730253215193155540952022974209000314376756255833114777303853554612037047326761464267581085228617755532197054729362806161583915074279822557814875749944261817770464801970981860188453492783189777071139269919658745172695127249187120915797305451263377261885543975701532254333969500391802762310183543634997311799185460659475292281740724807023188065953554374459739883444384588141327720461829169616030385613328815320225250753815577723837636829042816436131854392888129236608026245105218924399731559789129436351640139189061000991409362231464994735789086985627700353517499010977478645623647724823235568829343053422886121243121197862812736895460090423709545017120254127335398285237074653330715620986401314859284470979870639641641695981526336341493854633253306094157263593549894515779918954593426658056159612314154644878710112797441720451324557075363388576605478608694080896049832976209169170041679797335256668017359931679599324442828593748621670985169753160736161007147039178939217439021553701653465249084646130175743181161957185296561391676514553656932610104428942850790223601720985078700137770118609870367533853671539731040208018596157738095447556165258165613065064840820962360183895437156218057014627235404696175843601804010576672943044536772678047166494893507468451880514102452373211382353737736108357374812389503098298383063696593195385632627964240830683421462085405128310376688541609786718035772446815852098671750544638392328899261589074375889704519535399620236524250327795572176635336625173708376993051215234173199200247712780637295744308393549920960380307357372244402393021768503929906226637702841721116682443206748209589854382947873670364258077510841269066443585789479226267121877251211090551759206733007974221233712020021874767639963067506332113360647952122711188961035112792595468663310957106516770561537213104564356455401863429318313435691641071356108200440842542186832129308477904125976694118112254883729572373480769407674110767411554502053715414516942748750549825700912198577980075188502382391190093062686026091490784026034631996728055771498872420795715947682365621395423053115289125986709172288897963264221961333669296402931320511010430985257089843349362448099391125843429130033614469940300542964917044174028052371976077586344396426425418097759491394492525837111295971596047894359521700481426344722171728250722121794759776708983700086286543732299074446343566128621017425912638817223278824803467597009709182561469710386298743233635821192237468655041635963391956084135434559902606964112123524632245922232816299896745363969168847741150980846271959028914432461970094123770575896932106428086857442746177717254838600298435095068168571760622368899667463953491225703583611199177973477810193967490943897211208155153410574487115323037230577780906625619106261403834428426423621611441584437295788777558777764558049955082881986951151963711396994299287460407402112435657760651976936087575838303822776385445086778275864805887506034070797986597045804314826921974720181402853243482334605825913675273167476498865217883584024763222323706006642985166628817273421410845599953320682483665886015875781497993558121100857786074380921735409287092704082419292993389297532476404428027092799368695978105092769086138981399674740112677949166573265299947860432907341531316587254883327155224223487145845329958672220523253415596963218700860976110530049205209182446350079905421726435007859194657886523943598647009483656630215768509522687945632316194332507086355911293389021141420622990418577468739509802404761026955471425186288815547648254798057644038705899438869592222119737831991757010219497509160959753787824447292730408571589265823013313170870172020137176284070279787398039322464129392354319371990495624087539007371514793674114795507617930114546162860769508144348188670570107354844356423712561788779135057178721549739402439946583059226704562879233008952084505027999626876791175884497432892607364253645030849386643265139824239113362846277431812042390003460559402287977699609228505876497230722236549312549744448411223936101047524496160163835361490138162743780624085934104687186082846947331890640534410848927103263199893211086023236387837782500050133158577761029627336966268055668698075233916676053902025966091699869189735509728841229578440435292336080075283949239663638205827126174742317914402680461460660708507271448355898514614263499553487649862902418089115464418867624650816987198145747674230408307671378148219516735712122695742955857527601419017930558461771159961513571439388733341071753718286670894696844803537920797569116189756868526761288436843734707629453944775450557082018354780140884238400068728360231330420362557966380762324475063654967918518179674718723552832154352512616615604397379764153184432931331934767598105843379178954112949880465258045979681402808687168438937411884506451610263571182039538446815529087901506342542350350348976462816251596432639841410902292960210832459404302557951821723935706506814965666110847064657846314336969644190826777238884297841098587002445008967410689464347918400

/-- A bounded safety search certifying that the side to move cannot be
forced into a `PLAYER` win: on a terminal board the `PLAYER` must not have
won; with the AI to move, the single move read off `oTable` must be legal
and lead to a safe position; with the `PLAYER` to move, every legal reply
must lead to a safe position.  Zero fuel certifies nothing. -/
def safeCheck : Nat → Board → Bool → Bool
  | 0, _, _ => false
  | fuel + 1, b, oTurn =>
    bif evaluate b == 10 || evaluate b == -10 || isDraw b then
      !(evaluate b == -10)
    else
      bif oTurn then
        let p := oTable / 16 ^ encode b % 16
        bif Nat.blt p 9 && (b.get (p / 3) (p % 3) == Cell.E) then
          safeCheck fuel (b.set (p / 3) (p % 3) AI) false
        else false
      else
        cellsList.all fun rc =>
          bif b.get rc.1 rc.2 == Cell.E then
            safeCheck fuel (b.set rc.1 rc.2 PLAYER) true
          else true

section SafeCheckLemmas

/-- In-range coordinates occur in the row-major scan. -/
theorem mem_cellsList_of_bounds (r c : Nat) (hr : r < 3) (hc : c < 3) :
    (r, c) ∈ cellsList := by
  interval_cases r <;> interval_cases c <;> decide

/-- Soundness of the safety search: a certified position has a
nonnegative minimax score (at matching fuel). -/
theorem safeCheck_sound : ∀ (fuel : Nat) (b : Board) (t : Bool),
    safeCheck fuel b t = true → 0 ≤ (minimax fuel b t).1 := by
  intro fuel
  induction fuel with
  | zero =>
    intro b t h
    exact absurd h (by simp [safeCheck])
  | succ n ih =>
    intro b t h
    cases hterm : terminalTest b with
    | true =>
      have htt := hterm
      simp only [terminalTest] at htt
      rw [minimax_terminal (n + 1) b t hterm]
      simp only [safeCheck, htt, cond_true, Bool.not_eq_true'] at h
      rcases evaluate_mem b with he | he | he
      · rw [he] at h; cases h
      · simp [he]
      · simp [he]
    | false =>
      have htt := hterm
      simp only [terminalTest] at htt
      cases t with
      | true =>
        simp only [safeCheck, htt, cond_false, cond_true] at h
        cases hleg : (Nat.blt (oTable / 16 ^ encode b % 16) 9 &&
            (b.get (oTable / 16 ^ encode b % 16 / 3)
              (oTable / 16 ^ encode b % 16 % 3) == Cell.E)) with
        | false => rw [hleg] at h; cases h
        | true =>
          rw [hleg] at h
          simp only [cond_true] at h
          have hp9 : oTable / 16 ^ encode b % 16 < 9 := by
            have h8 : oTable / 16 ^ encode b % 16 ≤ 8 := by
              have := (Bool.and_eq_true .. ▸ hleg).1
              simpa [Nat.blt] using this
            omega
          have hE : b.get (oTable / 16 ^ encode b % 16 / 3)
              (oTable / 16 ^ encode b % 16 % 3) = Cell.E := by
            have := (Bool.and_eq_true .. ▸ hleg).2
            simpa using this
          set p := oTable / 16 ^ encode b % 16 with hp
          have hmem : (p / 3, p % 3) ∈ legalMoves b := by
            rw [mem_legalMoves]
            refine ⟨?_, hE⟩
            have h3 : p / 3 < 3 := by omega
            have h3' : p % 3 < 3 := by omega
            exact mem_cellsList_of_bounds _ _ h3 h3'
          have hchild := ih (b.set (p / 3) (p % 3) AI) false h
          have hcv : (minimax n (b.set (p / 3) (p % 3) AI) false).1 ∈
              childVals n b AI false := List.mem_map_of_mem _ hmem
          rw [minimax_val_max n b hterm]
          calc (0 : Int) ≤ (minimax n (b.set (p / 3) (p % 3) AI) false).1 := hchild
          _ ≤ (childVals n b AI false).foldl max (-1000) :=
            mem_le_foldl_max _ _ _ hcv
      | false =>
        simp only [safeCheck, htt, cond_false, List.all_eq_true] at h
        rw [minimax_val_min n b hterm]
        refine le_foldl_min _ _ _ (by omega) ?_
        intro x hx
        obtain ⟨rc, hrc, hval⟩ := List.mem_map.mp hx
        obtain ⟨hcl, hE⟩ := (mem_legalMoves b rc).mp hrc
        have hb := h rc hcl
        rw [hE] at hb
        simp only [beq_self_eq_true, cond_true] at hb
        rw [← hval]
        exact ih (b.set rc.1 rc.2 PLAYER) true hb

set_option maxRecDepth 100000 in
set_option maxHeartbeats 4000000 in
/-- The hard game trees from the blank board are certified safe (AI moving
first). -/
theorem safeCheck_empty_ai : safeCheck 10 emptyBoard true = true := by
  decide!

set_option maxRecDepth 100000 in
set_option maxHeartbeats 4000000 in
/-- The hard game trees from the blank board are certified safe (PLAYER
moving first). -/
theorem safeCheck_empty_player : safeCheck 10 emptyBoard false = true := by
  decide!

/-- The full search from the blank board scores at least a draw for the
AI, for both turn orders. -/
theorem minimax_empty_nonneg (t : Bool) : 0 ≤ (minimax 9 emptyBoard t).1 := by
  have hce : countEmpty emptyBoard = 9 := by decide
  have h10 : 0 ≤ (minimax 10 emptyBoard t).1 := by
    cases t with
    | true => exact safeCheck_sound 10 emptyBoard true safeCheck_empty_ai
    | false => exact safeCheck_sound 10 emptyBoard false safeCheck_empty_player
  rw [minimax_fuel_adequate 10 emptyBoard t (by omega)] at h10
  rw [minimax_fuel_adequate 9 emptyBoard t (by omega)]
  exact h10

end SafeCheckLemmas

section HardMoveLemmas

/-- Full characterization of the hard scan on a board with a blank cell:
the result carries the score and coordinates of the first row-major legal
move attaining the maximal score; earlier candidates score strictly less,
no candidate scores more, and the board is restored. -/
theorem bestMoveScan_spec (b : Board) (hnil : legalMoves b ≠ []) :
    ∃ k rc, (legalMoves b).get? k = some rc ∧
      (bestMoveScan b).1 = (hardScore b rc, ((rc.1 : Int), (rc.2 : Int))) ∧
      (∀ j rc', j < k → (legalMoves b).get? j = some rc' →
        hardScore b rc' < hardScore b rc) ∧
      (∀ j rc', (legalMoves b).get? j = some rc' →
        hardScore b rc' ≤ hardScore b rc) ∧
      (bestMoveScan b).2 = b := by
  have hpair := bestMoveScan_eq_pick b
  rcases pickAux_spec (scored b) ((-1000 : Int), (-1 : Int), (-1 : Int)) with
    ⟨h1, h2⟩ | ⟨k, x, hk, hpick, hgt, hbefore, hall⟩
  · exfalso
    obtain ⟨rc, hrc⟩ := List.exists_mem_of_ne_nil _ hnil
    have hx : (hardScore b rc, ((rc.1 : Int), (rc.2 : Int))) ∈ scored b :=
      List.mem_map_of_mem _ hrc
    have hle := h2 _ hx
    simp only at hle
    have hsv : hardScore b rc = -10 ∨ hardScore b rc = 0 ∨ hardScore b rc = 10 :=
      minimax_val_mem 9 (b.set rc.1 rc.2 AI) false
    omega
  · simp only [scored, List.get?_map] at hk
    obtain ⟨rc, hrc, hfrc⟩ := Option.map_eq_some'.mp hk
    subst hfrc
    refine ⟨k, rc, hrc, ?_, ?_, ?_, ?_⟩
    · rw [hpair]
      exact hpick
    · intro j rc' hj hrc'
      have hsj : (scored b).get? j =
          some (hardScore b rc', ((rc'.1 : Int), (rc'.2 : Int))) := by
        simp only [scored, List.get?_map, hrc']
        rfl
      have := hbefore j _ hj hsj
      simpa using this
    · intro j rc' hrc'
      have hsj : (scored b).get? j =
          some (hardScore b rc', ((rc'.1 : Int), (rc'.2 : Int))) := by
        simp only [scored, List.get?_map, hrc']
        rfl
      have := hall j _ hsj
      simpa using this
    · rw [hpair]

/-- On a board with a blank cell, `makeHardAIMove` places `AI` on a legal
cell whose score is maximal among the legal moves; in particular the final
write is in range and targets a previously blank cell. -/
theorem makeHardAIMove_spec (b : Board) (hnil : legalMoves b ≠ []) :
    ∃ rc, rc ∈ legalMoves b ∧
      (bestMoveScan b).1.2 = (((rc.1 : Int)), ((rc.2 : Int))) ∧
      makeHardAIMove b = some (b.set rc.1 rc.2 AI) ∧
      ∀ x ∈ legalMoves b, hardScore b x ≤ hardScore b rc := by
  obtain ⟨k, rc, hk, hfst, hbefore, hall, hsnd⟩ := bestMoveScan_spec b hnil
  have hmem : rc ∈ legalMoves b := List.get?_mem hk
  have hbounds := cellsList_bounds rc ((mem_legalMoves b rc).mp hmem).1
  refine ⟨rc, hmem, ?_, ?_, ?_⟩
  · rw [hfst]
  · have hcond : (0 ≤ ((rc.1 : Int)) ∧ ((rc.1 : Int)) < 3 ∧
        0 ≤ ((rc.2 : Int)) ∧ ((rc.2 : Int)) < 3) := by
      refine ⟨Int.natCast_nonneg rc.1, ?_, Int.natCast_nonneg rc.2, ?_⟩
      · exact_mod_cast hbounds.1
      · exact_mod_cast hbounds.2
    simp only [makeHardAIMove, hfst]
    rw [if_pos hcond, hsnd]
    simp
  · intro x hx
    obtain ⟨j, hj⟩ := List.get?_of_mem hx
    exact hall j x hj

/-- The child scores at fuel 8 coincide with the scan scores (fuel 9),
by fuel adequacy. -/
theorem childVals_eight_ai (b : Board) :
    childVals 8 b AI false = (legalMoves b).map (hardScore b) := by
  apply List.map_congr_left
  intro rc hrc
  have hcc := countEmpty_child b rc AI hrc (by simp [AI])
  have h9 : countEmpty b ≤ 9 := countEmpty_le_nine b
  rw [minimax_fuel_adequate 8 (b.set rc.1 rc.2 AI) false (by omega)]
  rw [show hardScore b rc = (minimax 9 (b.set rc.1 rc.2 AI) false).1 from rfl]
  rw [minimax_fuel_adequate 9 (b.set rc.1 rc.2 AI) false (by omega)]

/-- The player-reply child scores at fuel 8 coincide with fuel 9. -/
theorem childVals_eight_player (b : Board) :
    childVals 8 b PLAYER true =
      (legalMoves b).map fun rc => (minimax 9 (b.set rc.1 rc.2 PLAYER) true).1 := by
  apply List.map_congr_left
  intro rc hrc
  have hcc := countEmpty_child b rc PLAYER hrc (by simp [PLAYER])
  have h9 : countEmpty b ≤ 9 := countEmpty_le_nine b
  rw [minimax_fuel_adequate 8 (b.set rc.1 rc.2 PLAYER) true (by omega)]
  rw [minimax_fuel_adequate 9 (b.set rc.1 rc.2 PLAYER) true (by omega)]

/-- Value recurrence at the scan fuel (maximizing side). -/
theorem minimax_val_max9 (b : Board) (h : terminalTest b = false) :
    (minimax 9 b true).1 = (childVals 8 b AI false).foldl max (-1000) :=
  minimax_val_max 8 b h

/-- Value recurrence at the scan fuel (minimizing side). -/
theorem minimax_val_min9 (b : Board) (h : terminalTest b = false) :
    (minimax 9 b false).1 = (childVals 8 b PLAYER true).foldl min 1000 :=
  minimax_val_min 8 b h

/-- A board with no winner and a blank cell is non-terminal. -/
theorem terminalTest_false_of (b : Board) (hw : checkWinner b = Cell.E)
    (hd : isDraw b = false) : terminalTest b = false := by
  have he : evaluate b = 0 := by simp only [evaluate, hw]; rfl
  simp only [terminalTest, he, hd]
  rfl

/-- Safety invariant of hard play: every position reached with the AI
playing `makeHardAIMove` keeps a nonnegative score for the side to move as
seen by the AI. -/
theorem hardReach_invariant : ∀ (b : Board) (t : Bool), HardReach b t →
    0 ≤ (minimax 9 b t).1 := by
  intro b t h
  induction h with
  | startA => exact minimax_empty_nonneg true
  | startP => exact minimax_empty_nonneg false
  | @stepA b0 b' h0 hw hd hmove ih =>
    have hterm := terminalTest_false_of b0 hw hd
    have hnil := legalMoves_ne_nil b0 hd
    obtain ⟨rc, hmem, hcoords, hmk, hmax⟩ := makeHardAIMove_spec b0 hnil
    have hb' : b' = b0.set rc.1 rc.2 AI := by
      rw [hmove] at hmk
      exact Option.some.inj hmk
    subst hb'
    have hlow : (-1000 : Int) ≤ hardScore b0 rc := by
      have : hardScore b0 rc = -10 ∨ hardScore b0 rc = 0 ∨ hardScore b0 rc = 10 :=
        minimax_val_mem 9 (b0.set rc.1 rc.2 AI) false
      omega
    have hub : (minimax 9 b0 true).1 ≤ hardScore b0 rc := by
      rw [minimax_val_max9 b0 hterm, childVals_eight_ai b0]
      refine foldl_max_le _ _ _ hlow ?_
      intro x hx
      obtain ⟨y, hy, hyx⟩ := List.mem_map.mp hx
      rw [← hyx]
      exact hmax y hy
    calc (0 : Int) ≤ (minimax 9 b0 true).1 := ih
    _ ≤ hardScore b0 rc := hub
  | @stepP b0 rc h0 hw hd hr hc hE ih =>
    have hterm := terminalTest_false_of b0 hw hd
    have hmem : rc ∈ legalMoves b0 := by
      rw [mem_legalMoves]
      refine ⟨?_, hE⟩
      have : (rc.1, rc.2) ∈ cellsList := mem_cellsList_of_bounds rc.1 rc.2 hr hc
      simpa using this
    have hval := List.mem_map_of_mem
      (fun x : Nat × Nat => (minimax 9 (b0.set x.1 x.2 PLAYER) true).1) hmem
    have hmin : (minimax 9 b0 false).1 ≤ (minimax 9 (b0.set rc.1 rc.2 PLAYER) true).1 := by
      rw [minimax_val_min9 b0 hterm, childVals_eight_player b0]
      exact foldl_min_le_mem _ _ _ hval
    calc (0 : Int) ≤ (minimax 9 b0 false).1 := ih
    _ ≤ (minimax 9 (b0.set rc.1 rc.2 PLAYER) true).1 := hmin

end HardMoveLemmas

section ExampleBoards

/-- The spec's Medium test board `O O _ / X X _ / _ _ _`. -/
def exMediumBoard : Board :=
  ⟨Cell.O, Cell.O, Cell.E, Cell.X, Cell.X, Cell.E, Cell.E, Cell.E, Cell.E⟩

/-- The spec's tie-break test board `X _ _ / _ O _ / _ _ _`. -/
def exSearchBoard : Board :=
  ⟨Cell.X, Cell.E, Cell.E, Cell.E, Cell.O, Cell.E, Cell.E, Cell.E, Cell.E⟩

/-- A board entirely filled with `PLAYER` marks. -/
def fullXBoard : Board :=
  ⟨Cell.X, Cell.X, Cell.X, Cell.X, Cell.X, Cell.X, Cell.X, Cell.X, Cell.X⟩

/-- A board the `PLAYER` has won (top row). -/
def playerWinBoard : Board :=
  ⟨Cell.X, Cell.X, Cell.X, Cell.E, Cell.E, Cell.E, Cell.E, Cell.E, Cell.E⟩

/-- A nearly full board with two blank cells. -/
def nearFullBoard : Board :=
  ⟨Cell.X, Cell.O, Cell.X, Cell.O, Cell.X, Cell.O, Cell.O, Cell.E, Cell.E⟩

end ExampleBoards

/-- C1: Hard difficulty never loses: in every game in which the AI's moves
are all chosen by `makeHardAIMove` (from the blank board, either side
moving first) and the `PLAYER` plays arbitrary legal moves, no reachable
position — in particular no terminal one — has the `PLAYER` as winner, so
the hard move always guarantees at least a draw. -/
theorem hard_ai_never_loses (b : Board) (t : Bool) (h : HardReach b t) :
    checkWinner b ≠ PLAYER := by
  intro hwin
  have hinv := hardReach_invariant b t h
  have he : evaluate b = -10 := evaluate_of_playerWin b hwin
  have hterm : terminalTest b = true := by
    simp only [terminalTest, he]
    rfl
  rw [minimax_terminal 9 b t hterm, he] at hinv
  simp at hinv

/-- Witness for C1 at the blank board with the AI to move. -/
theorem hard_ai_never_loses_witness : checkWinner emptyBoard ≠ PLAYER :=
  hard_ai_never_loses emptyBoard true HardReach.startA

/-- C2 counterexample: on the fully `X`-filled board, `isDraw` is `true`
although a winner exists, so `isDraw b = true` is not equivalent to "no
blank cell and no winner". -/
theorem isDraw_winner_counterexample :
    ¬(isDraw fullXBoard = true ↔
      (legalMoves fullXBoard = [] ∧ checkWinner fullXBoard = Cell.E)) := by
  decide

/-- C2 (amended): `isDraw(board)` returns `true` iff the board has no blank
cell; the winner is not consulted, so a fully-filled board containing a
winning line is also reported as a draw, and callers must check the winner
first. -/
theorem isDraw_is_fullness_only (b : Board) : isDraw b = true ↔ legalMoves b = [] :=
  isDraw_iff_no_moves b

/-- C3: trial-and-revert invariant: `tryWinningMove`, the `makeHardAIMove`
scan, and every `minimax` call return the board exactly as they found it —
each hypothetical placement is reverted on every exit path. -/
theorem trial_and_revert :
    (∀ (b : Board) (symbol : Cell), (tryWinningMove b symbol).2 = b) ∧
    (∀ b : Board, (bestMoveScan b).2 = b) ∧
    (∀ (fuel : Nat) (b : Board) (m : Bool), (minimax fuel b m).2 = b) := by
  refine ⟨?_, ?_, minimax_board_restore⟩
  · intro b symbol
    rw [tryWinningMove_eq]
  · intro b
    rw [bestMoveScan_eq_pick]

/-- C4: tie-break determinism of the hard scan: on a non-terminal board the
scan walks the blank cells in row-major order, scores each with
`minimax(·, false)`, and returns the first cell achieving the maximal
score — a later cell is selected only for a strictly greater score. -/
theorem bestMove_tie_break (b : Board) (_hw : checkWinner b = Cell.E)
    (hd : isDraw b = false) :
    ∃ k rc, (legalMoves b).get? k = some rc ∧
      (bestMoveScan b).1.2 = ((rc.1 : Int), (rc.2 : Int)) ∧
      (bestMoveScan b).1.1 = hardScore b rc ∧
      (∀ j rc', j < k → (legalMoves b).get? j = some rc' →
        hardScore b rc' < hardScore b rc) ∧
      (∀ j rc', (legalMoves b).get? j = some rc' →
        hardScore b rc' ≤ hardScore b rc) := by
  obtain ⟨k, rc, hk, hfst, hbefore, hall, _⟩ :=
    bestMoveScan_spec b (legalMoves_ne_nil b hd)
  exact ⟨k, rc, hk, by rw [hfst], by rw [hfst], hbefore, hall⟩

/-- Witness for C4 at the spec's tie-break board. -/
theorem bestMove_tie_break_witness :
    checkWinner exSearchBoard = Cell.E ∧ isDraw exSearchBoard = false ∧
    (∃ k rc, (legalMoves exSearchBoard).get? k = some rc ∧
      (bestMoveScan exSearchBoard).1.2 = ((rc.1 : Int), (rc.2 : Int)) ∧
      (bestMoveScan exSearchBoard).1.1 = hardScore exSearchBoard rc ∧
      (∀ j rc', j < k → (legalMoves exSearchBoard).get? j = some rc' →
        hardScore exSearchBoard rc' < hardScore exSearchBoard rc) ∧
      (∀ j rc', (legalMoves exSearchBoard).get? j = some rc' →
        hardScore exSearchBoard rc' ≤ hardScore exSearchBoard rc)) :=
  ⟨by decide, by decide, bestMove_tie_break exSearchBoard (by decide) (by decide)⟩

/-- C5: Medium priority order: an immediate AI win (first such cell in
row-major order) beats blocking the first immediate `PLAYER` win, which
beats the random easy fallback; and on `O O _ / X X _ / _ _ _` the Medium
move is `(0, 2)`. -/
theorem medium_priority_order :
    (∀ (b : Board) (easy : Nat × Nat), legalMoves b ≠ [] →
      (∀ rc, (winningCells b AI).head? = some rc →
        makeMediumAIMove b easy = b.set rc.1 rc.2 AI) ∧
      (winningCells b AI = [] → ∀ rc, (winningCells b PLAYER).head? = some rc →
        makeMediumAIMove b easy = b.set rc.1 rc.2 AI) ∧
      (winningCells b AI = [] → winningCells b PLAYER = [] →
        makeMediumAIMove b easy = makeEasyAIMove b easy)) ∧
    (∀ easy : Nat × Nat, makeMediumAIMove exMediumBoard easy = exMediumBoard.set 0 2 AI) := by
  constructor
  · intro b easy _
    refine ⟨?_, ?_, ?_⟩
    · intro rc hrc
      simp only [makeMediumAIMove, tryWinningMove_eq, hrc]
    · intro hwin rc hrc
      simp only [makeMediumAIMove, tryWinningMove_eq, hwin, List.head?_nil, hrc]
    · intro hwin hblock
      simp only [makeMediumAIMove, tryWinningMove_eq, hwin, hblock, List.head?_nil]
  · intro easy
    have h1 : (winningCells exMediumBoard AI).head? = some (0, 2) := by decide
    simp only [makeMediumAIMove, tryWinningMove_eq, h1]

/-- Witness for C5 on the spec's Medium board. -/
theorem medium_priority_order_witness :
    makeMediumAIMove exMediumBoard (2, 2) = exMediumBoard.set 0 2 AI := by
  have h := medium_priority_order
  exact (h.1 exMediumBoard (2, 2) (by decide)).1 (0, 2) (by decide)

/-- C6: winner uniqueness and order-independence: on every board reachable
by alternating legal play from the blank board, at most one mark has a
completed line, and `checkWinner` returns the same result as the
reversed-order scan `checkWinnerAltOrder`. -/
theorem winner_unique_order_independent (b : Board) (t : Cell) (h : Reach b t) :
    ¬(hasLine b PLAYER = true ∧ hasLine b AI = true) ∧
    checkWinner b = checkWinnerAltOrder b := by
  have huniq : ¬(hasLine b PLAYER = true ∧ hasLine b AI = true) := by
    induction h with
    | startP =>
      rintro ⟨h1, -⟩
      have he : hasLine emptyBoard PLAYER = false := by decide
      rw [he] at h1
      cases h1
    | startA =>
      rintro ⟨h1, -⟩
      have he : hasLine emptyBoard PLAYER = false := by decide
      rw [he] at h1
      cases h1
    | @stepP b0 rc h0 hw hr hc hE ih =>
      rintro ⟨-, h2⟩
      rcases checkWinner_cases b0 with ⟨-, -, f2⟩ | ⟨e1, -⟩ | ⟨e1, -⟩
      · have := hasLine_set_of_ne b0 rc.1 rc.2 PLAYER AI hr hc (by decide) h2
        simp only [AI] at this
        rw [f2] at this
        cases this
      · rw [hw] at e1; exact absurd e1 (by decide)
      · rw [hw] at e1; exact absurd e1 (by decide)
    | @stepA b0 rc h0 hw hr hc hE ih =>
      rintro ⟨h1, -⟩
      rcases checkWinner_cases b0 with ⟨-, f1, -⟩ | ⟨e1, -⟩ | ⟨e1, -⟩
      · have := hasLine_set_of_ne b0 rc.1 rc.2 AI PLAYER hr hc (by decide) h1
        simp only [PLAYER] at this
        rw [f1] at this
        cases this
      · rw [hw] at e1; exact absurd e1 (by decide)
      · rw [hw] at e1; exact absurd e1 (by decide)
  refine ⟨huniq, ?_⟩
  apply checkWinner_order_indep
  cases hx : hasLine b Cell.X with
  | false => exact Or.inl rfl
  | true =>
    cases ho : hasLine b Cell.O with
    | false => exact Or.inr rfl
    | true => exact absurd ⟨hx, ho⟩ huniq

/-- Witness for C6 at the blank board. -/
theorem winner_unique_order_independent_witness :
    ¬(hasLine emptyBoard PLAYER = true ∧ hasLine emptyBoard AI = true) ∧
    checkWinner emptyBoard = checkWinnerAltOrder emptyBoard :=
  winner_unique_order_independent emptyBoard PLAYER Reach.startP

/-- C7: precondition safety of the hard move: on a board with at least one
blank cell the scan selects in-range coordinates of a previously blank
cell, so the final write is in bounds and `makeHardAIMove` succeeds — the
out-of-range branch is unreachable under the precondition. -/
theorem bestMove_precondition_safety (b : Board) (h : 1 ≤ countEmpty b) :
    ∃ rc, rc ∈ legalMoves b ∧ rc.1 < 3 ∧ rc.2 < 3 ∧ b.get rc.1 rc.2 = Cell.E ∧
      (bestMoveScan b).1.2 = ((rc.1 : Int), (rc.2 : Int)) ∧
      makeHardAIMove b = some (b.set rc.1 rc.2 AI) := by
  have hnil : legalMoves b ≠ [] := by
    intro hn
    rw [countEmpty, hn] at h
    simp at h
  obtain ⟨rc, hmem, hco, hmk, -⟩ := makeHardAIMove_spec b hnil
  have hb := cellsList_bounds rc ((mem_legalMoves b rc).mp hmem).1
  exact ⟨rc, hmem, hb.1, hb.2, ((mem_legalMoves b rc).mp hmem).2, hco, hmk⟩

/-- Witness for C7 at the blank board. -/
theorem bestMove_precondition_safety_witness :
    1 ≤ countEmpty emptyBoard ∧
    (∃ rc, rc ∈ legalMoves emptyBoard ∧ rc.1 < 3 ∧ rc.2 < 3 ∧
      emptyBoard.get rc.1 rc.2 = Cell.E ∧
      (bestMoveScan emptyBoard).1.2 = ((rc.1 : Int), (rc.2 : Int)) ∧
      makeHardAIMove emptyBoard = some (emptyBoard.set rc.1 rc.2 AI)) :=
  ⟨by decide, bestMove_precondition_safety emptyBoard (by decide)⟩

/-- C8: termination of `minimax`: a hypothetical mark placed on a blank
cell strictly decreases the number of blank cells, a board with zero blank
cells is terminal via the draw check, and consequently any fuel at least
the count of blank cells yields the fuel-free result — the recursion is
well-founded on the count of blank cells. -/
theorem minimax_termination :
    (∀ (b : Board) (rc : Nat × Nat) (m : Cell), rc ∈ cellsList →
      b.get rc.1 rc.2 = Cell.E → m ≠ Cell.E →
      countEmpty (b.set rc.1 rc.2 m) + 1 = countEmpty b) ∧
    (∀ b : Board, countEmpty b = 0 → isDraw b = true) ∧
    (∀ (fuel : Nat) (b : Board) (m : Bool), countEmpty b ≤ fuel →
      minimax fuel b m = minimax (countEmpty b) b m) :=
  ⟨countEmpty_set, isDraw_of_countEmpty_zero, minimax_fuel_adequate⟩

/-- Witness for C8 at concrete boards. -/
theorem minimax_termination_witness :
    countEmpty (emptyBoard.set 0 0 PLAYER) + 1 = countEmpty emptyBoard ∧
    isDraw fullXBoard = true ∧
    minimax 2 nearFullBoard true = minimax (countEmpty nearFullBoard) nearFullBoard true :=
  ⟨minimax_termination.1 emptyBoard (0, 0) PLAYER (by decide) (by decide) (by decide),
    minimax_termination.2.1 fullXBoard (by decide),
    minimax_termination.2.2 2 nearFullBoard true (by decide)⟩

/-- C9: scoring symmetry: on a board the `PLAYER` has won, `evaluate`
returns `-10`, and on the mirrored board (both marks swapped) the `AI` has
won and `evaluate` returns the exact negation, `+10`. -/
theorem evaluate_scoring_symmetry (b : Board) (h : checkWinner b = PLAYER) :
    evaluate b = -10 ∧ evaluate (mirror b) = 10 ∧
    evaluate b = -evaluate (mirror b) := by
  have h1 : evaluate b = -10 := evaluate_of_playerWin b h
  have hm : checkWinner (mirror b) = Cell.O := by
    rw [checkWinner_mirror, h]
    rfl
  have h2 : evaluate (mirror b) = 10 := evaluate_of_aiWin (mirror b) hm
  refine ⟨h1, h2, ?_⟩
  rw [h1, h2]

/-- Witness for C9 at a concrete `PLAYER`-won board. -/
theorem evaluate_scoring_symmetry_witness :
    checkWinner playerWinBoard = PLAYER ∧
    (evaluate playerWinBoard = -10 ∧ evaluate (mirror playerWinBoard) = 10 ∧
      evaluate playerWinBoard = -evaluate (mirror playerWinBoard)) :=
  ⟨by decide, evaluate_scoring_symmetry playerWinBoard (by decide)⟩

/-- C10: for every board and both flags (and any fuel, in particular the
fuel `9` used by every caller), `minimax` returns a value in
`{-10, 0, 10}` — the initial sentinels `-1000` and `+1000` never escape. -/
theorem minimax_value_range (fuel : Nat) (b : Board) (m : Bool) :
    (minimax fuel b m).1 = -10 ∨ (minimax fuel b m).1 = 0 ∨
      (minimax fuel b m).1 = 10 :=
  minimax_val_mem fuel b m
